import Mathlib

/-!
Verification development for the `readable` content extractor
(`readable/core.py`, a port of Arc90 readability 1.7.1).

HTML documents are modelled as rose trees of elements carrying tag,
attribute list, text, tail and the optional score annotation (the
`readable` bag of the source).  lxml object identity is modelled by a
numeric id `nid`; functions that create fresh elements thread a counter
supplying fresh ids.  Python strings are Lean `String`s; a `None`
text/tail is represented by `""` (the source only tests truthiness of
these fields, and both `None` and `""` are falsy).  Scores are Python
floats; every float value reached in the developments below is a dyadic
rational, so they are modelled exactly by `Rat`.
-/

namespace Readable

/-- Python regex character class `\s` (the source compiles its regexes
without `re.UNICODE`). -/
def isPyWS (c : Char) : Bool :=
  c = ' ' || c = '\t' || c = '\n' || c = '\r' || c = '\x0b' || c = '\x0c'

/-- Pending-whitespace-run state for `normWS`: the run seen so far,
capped at two characters (a run of two or more always flushes to a
single `' '`). -/
def normPush : List Char → Char → List Char
  | [], c => [c]
  | _ :: _, _ => [' ', ' ']

def normFlush : List Char → List Char
  | [] => []
  | [c] => [c]
  | _ => [' ']

def normGo (pend : List Char) : List Char → List Char
  | [] => normFlush pend
  | c :: rest =>
    if isPyWS c then normGo (normPush pend c) rest
    else normFlush pend ++ c :: normGo [] rest
termination_by structural l => l

/-- `RE_NORMALIZE = re.compile('\s{2,}')`, used with `sub(' ', text)`:
every maximal run of two or more whitespace characters becomes a single
`' '`; a lone whitespace character is kept as it is. -/
def normWS (l : List Char) : List Char := normGo [] l

/-- `needle` occurs at the start of `hay`. -/
def listHasPfx : List Char → List Char → Bool
  | [], _ => true
  | _ :: _, [] => false
  | a :: as, b :: bs => a = b && listHasPfx as bs
termination_by structural l => l

/-- `needle` occurs contiguously somewhere in `hay`
(`re.search` for a literal pattern). -/
def listHasSub (needle : List Char) : List Char → Bool
  | [] => needle.isEmpty
  | c :: rest => listHasPfx needle (c :: rest) || listHasSub needle rest
termination_by structural l => l

def lowerStr (s : String) : String := String.mk (s.toList.map Char.toLower)

/-- `re.search` of an alternation of literal lowercase tokens, compiled
with `re.I`: some token occurs in the lowercased subject. -/
def reSearch (toks : List String) (s : String) : Bool :=
  toks.any fun t => listHasSub t.toList (lowerStr s).toList

/-- `RE_UNLIKELY` token alternation (line 41). -/
def reUnlikelyToks : List String :=
  ["combx", "comment", "community", "disqus", "extra", "foot",
   "header", "menu", "remark", "rss", "shoutbox", "sidebar", "sponsor",
   "ad-break", "agegate", "pagination", "pager", "popup", "tweet", "twitter"]

/-- `RE_MAYBE` token alternation (line 44). -/
def reMaybeToks : List String :=
  ["and", "article", "body", "column", "main", "shadow"]

/-- `RE_POSITIVE` token alternation (line 45). -/
def rePositiveToks : List String :=
  ["article", "body", "content", "entry", "hentry", "main", "page",
   "pagination", "post", "text", "blog", "story"]

/-- `RE_NEGATIVE` token alternation (line 47). -/
def reNegativeToks : List String :=
  ["combx", "comment", "com-", "contact", "foot", "footer",
   "footnote", "masthead", "media", "meta", "outbrain", "promo", "related",
   "scroll", "shoutbox", "sidebar", "sponsor", "shopping", "tags", "tool",
   "widget"]

/-- `RE_VIDEOS = re.compile('http:\/\/(www\.)?(youtube|vimeo)\.com', re.I)`.
The language of this pattern is exactly the four literal strings below,
matched case-insensitively anywhere in the subject. -/
def reVideosSearch (s : String) : Bool :=
  reSearch ["http://youtube.com", "http://www.youtube.com",
            "http://vimeo.com", "http://www.vimeo.com"] s

/-- `RE_SENT = re.compile('\.( |$)')`: a dot followed by a space, or a
dot at the end of the subject. -/
def reSentList : List Char → Bool
  | [] => false
  | ['.'] => true
  | '.' :: ' ' :: _ => true
  | _ :: rest => reSentList rest
termination_by structural l => l

def reSentSearch (s : String) : Bool := reSentList s.toList

/-- `_REPL_PARAS` (line 53), the tag union of `XPATH_REPL_PARAS`. -/
def replParas : List String :=
  ["a", "blockquote", "dl", "div", "img", "ol", "p", "pre", "table", "ul"]

/-- An HTML element: id (object identity), tag, attributes, text, tail,
the optional `readable` score annotation, children. -/
inductive Node where
  | mk (nid : Nat) (tag : String) (attrs : List (String × String))
       (text tail : String) (readable : Option Rat) (children : List Node)

def Node.nid : Node → Nat | .mk i _ _ _ _ _ _ => i
def Node.tag : Node → String | .mk _ t _ _ _ _ _ => t
def Node.attrs : Node → List (String × String) | .mk _ _ a _ _ _ _ => a
def Node.text : Node → String | .mk _ _ _ t _ _ _ => t
def Node.tail : Node → String | .mk _ _ _ _ t _ _ => t
def Node.readable : Node → Option Rat | .mk _ _ _ _ _ r _ => r
def Node.children : Node → List Node | .mk _ _ _ _ _ _ c => c

/-- `node.get(name, '')`. -/
def Node.getAttr (n : Node) (name : String) : String :=
  match n.attrs.find? (fun p => p.1 = name) with
  | some p => p.2
  | none => ""

/-- `node.attrib[name] = v` (replace an existing entry, else append). -/
def setAttrList (name v : String) : List (String × String) → List (String × String)
  | [] => [(name, v)]
  | p :: rest => if p.1 = name then (name, v) :: rest else p :: setAttrList name v rest
termination_by structural l => l

def Node.setAttr (n : Node) (name v : String) : Node :=
  .mk n.nid n.tag (setAttrList name v n.attrs) n.text n.tail n.readable n.children

mutual

/-- Size measure counting elements; strings do not contribute, so
editing text fields preserves it. -/
def nsize : Node → Nat
  | .mk _ _ _ _ _ _ cs => 1 + nsizeF cs
termination_by structural n => n

def nsizeF : List Node → Nat
  | [] => 0
  | c :: rest => nsize c + nsizeF rest
termination_by structural l => l

end

mutual

/-- Document-order (preorder) flattening of a forest. -/
def descF : List Node → List Node
  | [] => []
  | c :: rest => c :: (descN c ++ descF rest)
termination_by structural l => l

def descN : Node → List Node
  | .mk _ _ _ _ _ _ cs => descF cs
termination_by structural n => n

end

/-- `list(node.iterdescendants())`: all strict descendants in document
order. -/
def Node.descendants (t : Node) : List Node := descN t

def Node.allNodes (t : Node) : List Node := t :: t.descendants

/-- All element ids of a tree are pairwise distinct (lxml object
identity). -/
def NidsOk (t : Node) : Prop := (t.allNodes.map Node.nid).Nodup

mutual

/-- Locate the node with id `i` (preorder, root included). -/
def findByNid (i : Nat) : Node → Option Node
  | .mk j t a x l r cs =>
    if j = i then some (.mk j t a x l r cs) else findInF i cs
termination_by structural n => n

def findInF (i : Nat) : List Node → Option Node
  | [] => none
  | c :: rest =>
    match findByNid i c with
    | some n => some n
    | none => findInF i rest
termination_by structural l => l

end

mutual

/-- `node.getparent()` of the node with id `i`, within tree `t`
(`none` when `i` is the root or absent). -/
def parentByNid (i : Nat) : Node → Option Node
  | .mk j t a x l r cs =>
    if cs.any (fun c => c.nid = i) then some (.mk j t a x l r cs)
    else parentInF i cs
termination_by structural n => n

def parentInF (i : Nat) : List Node → Option Node
  | [] => none
  | c :: rest =>
    match parentByNid i c with
    | some p => some p
    | none => parentInF i rest
termination_by structural l => l

end

mutual

/-- `node.getparent().remove(node)` for the node with id `i`: detach it
(together with its subtree and its tail text, as lxml does). -/
def removeNid (i : Nat) : Node → Node
  | .mk j t a x l r cs => .mk j t a x l r (removeNidF i cs)
termination_by structural n => n

def removeNidF (i : Nat) : List Node → List Node
  | [] => []
  | c :: rest =>
    if c.nid = i then removeNidF i rest else removeNid i c :: removeNidF i rest
termination_by structural l => l

end

mutual

/-- `node.getparent().replace(node, newn)` for the node with id `i`. -/
def replaceNid (i : Nat) (newn : Node) : Node → Node
  | .mk j t a x l r cs => .mk j t a x l r (replaceNidF i newn cs)
termination_by structural n => n

def replaceNidF (i : Nat) (newn : Node) : List Node → List Node
  | [] => []
  | c :: rest =>
    if c.nid = i then newn :: replaceNidF i newn rest
    else replaceNid i newn c :: replaceNidF i newn rest
termination_by structural l => l

end

mutual

/-- Mutate (in place) the node with id `i` by `f` (used for attribute
writes and `readable` score updates on live references). -/
def updateNid (i : Nat) (f : Node → Node) : Node → Node
  | .mk j t a x l r cs =>
    if j = i then f (.mk j t a x l r cs)
    else .mk j t a x l r (updateNidF i f cs)
termination_by structural n => n

def updateNidF (i : Nat) (f : Node → Node) : List Node → List Node
  | [] => []
  | c :: rest => updateNid i f c :: updateNidF i f rest
termination_by structural l => l

end

mutual

/-- `get_inner_text` before normalization (lines 535-547): the node's own
text, each child recursively, then the node's tail, a space prepended
before each non-empty text chunk. -/
def inner_raw : Node → String
  | .mk _ _ _ x l _ cs =>
    (if x ≠ "" then " " ++ x else "") ++ innerRawF cs ++
      (if l ≠ "" then " " ++ l else "")
termination_by structural n => n

def innerRawF : List Node → String
  | [] => ""
  | c :: rest => inner_raw c ++ innerRawF rest
termination_by structural l => l

end

/-- `get_inner_text(node, normalize_spaces)`: normalization (RE_NORMALIZE)
is applied once, at the outermost level only. -/
def get_inner_text (normalize : Bool) (n : Node) : String :=
  if normalize then String.mk (normWS (inner_raw n).toList) else inner_raw n

/-- `len(text.split(c))`: splitting on a single character yields
(number of occurrences) + 1 parts. -/
def pySplitLen (s : String) (c : Char) : Nat := s.toList.count c + 1

/-- `get_char_count(node, char)` (line 551). -/
def get_char_count (n : Node) (c : Char) : Nat :=
  pySplitLen (get_inner_text true n) c - 1

/-- `get_link_density(node)` (lines 564-572): float division modelled by
`Rat` (exact for the values reached in this development). -/
def get_link_density (n : Node) : Rat :=
  let links := n.descendants.filter (fun l => l.tag = "a")
  let textlen := (get_inner_text true n).length
  if textlen = 0 then 0
  else ((links.map (fun l => ((get_inner_text true l).length : Rat))).sum) / (textlen : Rat)

def FLAG_NONE : Nat := 0x0
def FLAG_STRIP_UNLIKELY : Nat := 0x01
def FLAG_CLASS_WEIGHT : Nat := 0x02
def FLAG_CLEAN_CONDITIONALLY : Nat := 0x04

/-- The relaxation queue `FLAGS` (lines 123-128). -/
def FLAGS : List Nat :=
  [FLAG_NONE, FLAG_STRIP_UNLIKELY, FLAG_CLASS_WEIGHT, FLAG_CLEAN_CONDITIONALLY]

/-- `get_clsid(node)` (line 156). -/
def get_clsid (n : Node) : String × String := (n.getAttr "class", n.getAttr "id")

/-- `is_unlikely(node)` (lines 141-150), gated on the
`STRIP_UNLIKELY` flag of the instance state `flags`. -/
def is_unlikely (flags : Nat) (n : Node) : Bool :=
  if flags &&& FLAG_STRIP_UNLIKELY = 0 then false
  else if n.tag = "body" then false
  else
    let ms := (get_clsid n).1 ++ (get_clsid n).2
    reSearch reUnlikelyToks ms && !reSearch reMaybeToks ms

/-- `get_class_weight(node)` (lines 598-613). -/
def get_class_weight (flags : Nat) (n : Node) : Int :=
  if flags &&& FLAG_CLASS_WEIGHT = 0 then 0
  else
    let ncls := (get_clsid n).1
    let nid := (get_clsid n).2
    let w : Int := 0
    let w := if ncls ≠ "" then
        (if reSearch reNegativeToks ncls then w - 25 else w) else w
    let w := if ncls ≠ "" then
        (if reSearch rePositiveToks ncls then w + 25 else w) else w
    let w := if nid ≠ "" then
        (if reSearch reNegativeToks nid then w - 25 else w) else w
    let w := if nid ≠ "" then
        (if reSearch rePositiveToks nid then w + 25 else w) else w
    w

/-- `initialize_node(node)` (lines 271-285): attach the `readable` score
bag with the tag-based initial score plus the class weight.  (The
`node is None` guard of the source is vacuous at every call site.) -/
def init_node (flags : Nat) (n : Node) : Node :=
  let score : Int :=
    if n.tag = "div" then 5
    else if n.tag ∈ ["pre", "td", "blockquote"] then 3
    else if n.tag ∈ ["address", "ol", "ul", "dl", "dd", "dt", "li", "form"] then -3
    else if n.tag ∈ ["h1", "h2", "h3", "h4", "h5", "h6", "th"] then -5
    else 0
  let score := score + get_class_weight flags n
  .mk n.nid n.tag n.attrs n.text n.tail (some (score : Rat)) n.children

mutual

/-- `node_copy(node)` (lines 179-187): fresh elements (fresh ids, no
`readable` bag) with the same tag, attributes, text, tail and
recursively copied children. -/
def node_copy (g : Nat) : Node → Node × Nat
  | .mk _ t a x l _ cs =>
    let (cs', g') := node_copyF (g + 1) cs
    (.mk g t a x l none cs', g')
termination_by structural n => n

def node_copyF (g : Nat) : List Node → List Node × Nat
  | [] => ([], g)
  | c :: rest =>
    let (c', g') := node_copy g c
    let (rest', g'') := node_copyF g' rest
    (c' :: rest', g'')
termination_by structural l => l

end

mutual

/-- `clean_styles(node)` (lines 556-560). -/
def clean_styles : Node → Node
  | .mk i t a x l r cs =>
    .mk i t (a.filter (fun p => p.1 ≠ "style")) x l r (clean_stylesF cs)
termination_by structural n => n

def clean_stylesF : List Node → List Node
  | [] => []
  | c :: rest => clean_styles c :: clean_stylesF rest
termination_by structural l => l

end

def pyJoinBar (vals : List String) : String := String.intercalate "|" vals

/-- `'|'.join(n.attrib.values())` matched against `RE_VIDEOS`.  No string
of the video pattern language contains `'|'`, so a match in the joined
string always lies inside a single attribute value. -/
def videoAttrsMatch (n : Node) : Bool :=
  reVideosSearch (pyJoinBar (n.attrs.map Prod.snd))

/-- `clean(node, tag)` (lines 625-633).  The xpath snapshot is taken
once, in document order; removing a node whose ancestor was already
removed mutates detached garbage only, which `removeNid` models as a
no-op (the id is no longer in the tree). -/
def clean (node : Node) (tag : String) : Node :=
  let targets := node.descendants.filter (fun n => n.tag = tag)
  let isEmbedT := tag = "object" || tag = "embed"
  targets.foldl
    (fun t n => if isEmbedT && videoAttrsMatch n then t else removeNid n.nid t)
    node

/-- The removal decision of `clean_conditionally` (lines 644-686) for one
candidate node, evaluated on its snapshot subtree (document order makes
earlier removals disjoint from later candidates' subtrees).  The float
literals 0.2 and 0.5 are modelled by the rationals 1/5 and 1/2; no
comparison in this development sits on the float/rational boundary. -/
def ccShouldRemove (flags : Nat) (tag : String) (n : Node) : Bool :=
  let weight := get_class_weight flags n
  let score : Rat := match n.readable with | some s => s | none => 0
  if (weight : Rat) + score < 0 then true
  else if get_char_count n ',' < 10 then
    let num_p := (n.descendants.filter (fun d => d.tag = "p")).length
    let num_img := (n.descendants.filter (fun d => d.tag = "img")).length
    let num_li : Int := ((n.descendants.filter (fun d => d.tag = "li")).length : Int) - 100
    let num_input := (n.descendants.filter (fun d => d.tag = "input")).length
    let num_embeds := (n.descendants.filter
      (fun d => d.tag = "embed" && reVideosSearch (d.getAttr "src"))).length
    let ld := get_link_density n
    let len_content := (get_inner_text true n).length
    if num_img > num_p then true
    else if num_li > (num_p : Int) ∧ tag ∉ ["ul", "ol"] then true
    else if num_input > num_p / 3 then true
    else if len_content < 25 ∧ (num_img = 0 ∨ num_img > 2) then true
    else if weight < 25 ∧ ld > (1 : Rat)/5 then true
    else if weight ≥ 25 ∧ ld > (1 : Rat)/2 then true
    else if (num_embeds = 1 ∧ len_content < 75) ∨ num_embeds > 1 then true
    else false
  else false

/-- `clean_conditionally(node, tag)` (lines 637-688), gated on the
`CLEAN_CONDITIONALLY` flag.  (The `n == node` guard is vacuous: the
xpath result contains strict descendants only.) -/
def clean_conditionally (flags : Nat) (node : Node) (tag : String) : Node :=
  if flags &&& FLAG_CLEAN_CONDITIONALLY = 0 then node
  else
    let targets := node.descendants.filter (fun n => n.tag = tag)
    (targets.filter (ccShouldRemove flags tag)).foldl
      (fun t n => removeNid n.nid t) node

/-- One pass of `clean_headers(node)` (lines 692-698) for a single header
tag; the source loops `i in range(0, 3)` producing the tags `h0`, `h1`,
`h2` (0.33 is modelled by 33/100). -/
def cleanHeaderPass (flags : Nat) (t : Node) (htag : String) : Node :=
  let targets := t.descendants.filter (fun n => n.tag = htag)
  (targets.filter (fun n =>
      decide (get_class_weight flags n < 0) ||
      decide (get_link_density n > (33 : Rat)/100))).foldl
    (fun acc n => removeNid n.nid acc) t

def clean_headers (flags : Nat) (node : Node) : Node :=
  cleanHeaderPass flags (cleanHeaderPass flags (cleanHeaderPass flags node "h0") "h1") "h2"

/-- Python comparison of an xpath result list with the integer 0: a list
and an int are never equal in Python (no coercion is attempted, and the
fallback identity comparison fails), so this is constantly `false`.  The
source tests `num_img == 0` etc. directly on the xpath result objects
(lines 260-263). -/
def pyEqListInt (_xs : List Node) (_i : Int) : Bool := false

/-- The final paragraph sweep of `prep_article` (lines 258-265). -/
def strayPhase (content : Node) : Node :=
  let targets := content.descendants.filter (fun n => n.tag = "p")
  targets.foldl
    (fun t n =>
      if pyEqListInt (n.descendants.filter (fun d => d.tag = "img")) 0 &&
         pyEqListInt (n.descendants.filter (fun d => d.tag = "embed")) 0 &&
         pyEqListInt (n.descendants.filter (fun d => d.tag = "object")) 0 then
        if get_inner_text false n ≠ "" then removeNid n.nid t else t
      else t)
    content

/-- `prep_article(content)` (lines 243-265). -/
def prep_article (flags : Nat) (content : Node) : Node :=
  let c := clean_styles content
  let c := clean_conditionally flags c "form"
  let c := clean c "object"
  let c := clean c "h1"
  let c := if (c.descendants.filter (fun n => n.tag = "h2")).length = 1
           then clean c "h2" else c
  let c := clean c "iframe"
  let c := clean_headers flags c
  let c := clean_conditionally flags c "table"
  let c := clean_conditionally flags c "ul"
  let c := clean_conditionally flags c "div"
  strayPhase c

def strNonblank (s : String) : Bool := s.toList.any (fun c => !isPyWS c)

mutual

/-- `convert_brs(node)` (lines 306-341).  `drop` records that the
caller has already cleared this node's tail (`n.tail = ''` after
wrapping it).  In the rebuild branch the replacement element is fresh
(fresh id, empty text/tail, no `readable` bag); `<br>` children are
dropped, and non-blank leading text, child tails and the node's own tail
are wrapped in fresh `<p>` elements.  Recursion into the new children is
fused into the rebuild: it visits exactly the nodes the source's
follow-up loop visits (the fresh `<p>` wrappers are br-free leaves, on
which the recursion is the identity). -/
def convert_brs (g : Nat) (drop : Bool) : Node → Node × Nat
  | .mk i t a x l r cs =>
    let tl := if drop then "" else l
    if cs.any (fun c => c.tag = "br") then
      let newnId := g
      let g := g + 1
      let (lead, g) :=
        if strNonblank x then ([Node.mk g "p" [] x "" none []], g + 1) else ([], g)
      let (mid, g) := convert_brs_kids g cs
      let (trail, g) :=
        if strNonblank tl then ([Node.mk g "p" [] tl "" none []], g + 1) else ([], g)
      (.mk newnId t a "" "" none (lead ++ mid ++ trail), g)
    else
      let (cs', g') := convert_brs_map g cs
      (.mk i t a x tl r cs', g')
termination_by structural n => n

def convert_brs_kids (g : Nat) : List Node → List Node × Nat
  | [] => ([], g)
  | c :: rest =>
    if c.tag = "br" then
      let (wrapped, g) :=
        if strNonblank c.tail then ([Node.mk g "p" [] c.tail "" none []], g + 1)
        else ([], g)
      let (rest', g') := convert_brs_kids g rest
      (wrapped ++ rest', g')
    else
      let dropT := strNonblank c.tail
      let (c', g) := convert_brs g dropT c
      let (wrapped, g) :=
        if dropT then ([Node.mk g "p" [] c.tail "" none []], g + 1) else ([], g)
      let (rest', g') := convert_brs_kids g rest
      (c' :: (wrapped ++ rest'), g')
termination_by structural l => l

def convert_brs_map (g : Nat) : List Node → List Node × Nat
  | [] => ([], g)
  | c :: rest =>
    let (c', g') := convert_brs g false c
    let (rest', g'') := convert_brs_map g' rest
    (c' :: rest', g'')
termination_by structural l => l

end

/-- The state of `NodeIter` (lines 76-109): the live root, the snapshot
node list, the cursor and the last yielded node. -/
structure NodeIterSt where
  root : Node
  nodes : List Node
  idx : Nat
  current : Option Node

def nodeIterInit (root : Node) : NodeIterSt :=
  ⟨root, root.descendants, 0, none⟩

/-- `NodeIter.next` (lines 89-95): yield the node at `idx` and advance.
Python yields an object reference whose live state is the tree's; the
model re-reads the node from the live tree (falling back to the snapshot
value for references that were detached, whose state no longer changes). -/
def NodeIterSt.nextN (st : NodeIterSt) : Option (Node × NodeIterSt) :=
  match st.nodes[st.idx]? with
  | none => none
  | some n0 =>
    let n := (findByNid n0.nid st.root).getD n0
    some (n, { st with idx := st.idx + 1, current := some n })

/-- `NodeIter.remove` (lines 97-109): detach `current` from its parent,
rebuild the snapshot from the live tree, and step the cursor back one
position. -/
def NodeIterSt.removeCur (st : NodeIterSt) : NodeIterSt :=
  match st.current with
  | none => st
  | some c =>
    let root := removeNid c.nid st.root
    { root := root, nodes := root.descendants, idx := st.idx - 1,
      current := st.current }

mutual

/-- The reference description of the required visiting order: every node
in document order, except that the subtree below a node satisfying `p`
(which is removed upon its visit) is skipped. -/
def skipVisitF (p : Node → Bool) : List Node → List Node
  | [] => []
  | c :: rest =>
    c :: ((if p c then [] else skipVisitN p c) ++ skipVisitF p rest)
termination_by structural l => l

def skipVisitN (p : Node → Bool) : Node → List Node
  | .mk _ _ _ _ _ _ cs => skipVisitF p cs
termination_by structural n => n

end

/-- `n.xpath(XPATH_REPL_PARAS)` is non-empty: some strict descendant has
one of the `_REPL_PARAS` tags. -/
def hasReplParaDesc (n : Node) : Bool :=
  n.descendants.any (fun d => replParas.contains d.tag)

/-- `_paragraphize_text(node)` (lines 374-399): build the replacement
element (same tag and attributes, fresh id), wrapping the node's leading
text, each child's tail and the node's own tail in fresh `<p>` elements;
wrapped tails are cleared.  Returns the replacement, the ids of the
generated `<p>`s (the returned `to_score` list), and the id counter. -/
def paragraphize_text (g : Nat) (n : Node) : Node × List Nat × Nat :=
  let newnId := g
  let g := g + 1
  let (kids, scored, g) :=
    if n.text ≠ "" then
      ([Node.mk g "p" [] n.text "" none []], [g], g + 1)
    else ([], [], g)
  let (kids, scored, g) := n.children.foldl
    (fun (acc : List Node × List Nat × Nat) c =>
      let (kids, scored, g) := acc
      if c.tail ≠ "" then
        (kids ++ [Node.mk c.nid c.tag c.attrs c.text "" c.readable c.children,
                  Node.mk g "p" [] c.tail "" none []],
         scored ++ [g], g + 1)
      else (kids ++ [c], scored, g))
    (kids, scored, g)
  let (kids, scored, g) :=
    if n.tail ≠ "" then
      (kids ++ [Node.mk g "p" [] n.tail "" none []], scored ++ [g], g + 1)
    else (kids, scored, g)
  (.mk newnId n.tag n.attrs "" "" none kids, scored, g)

/-- `select_scorable(node)` (lines 344-370): iterate the descendants with
`NodeIter`; remove unlikely nodes through the iterator; collect
`p`/`td`/`pre` nodes for scoring; rewrite `div`s (retag-as-`p` copy when
no `_REPL_PARAS` descendant, else `_paragraphize_text`) — the source
replaces nodes without rebuilding the iterator snapshot, and so does the
model.  `to_score` holds ids (the source holds object references; see
`score_paras_step` for how detached references are treated). -/
def select_scorable (flags : Nat) : Nat → NodeIterSt → List Nat → Nat →
    List Nat × Node × Nat
  | 0, st, toScore, g => (toScore, st.root, g)
  | fuel + 1, st, toScore, g =>
    match st.nextN with
    | none => (toScore, st.root, g)
    | some (n, st') =>
      if is_unlikely flags n then
        select_scorable flags fuel st'.removeCur toScore g
      else
        let toScore := if n.tag ∈ ["p", "td", "pre"] then toScore ++ [n.nid]
                       else toScore
        if n.tag = "div" then
          if ¬ hasReplParaDesc n then
            let (newn0, g') := node_copy g n
            let newn := Node.mk newn0.nid "p" newn0.attrs newn0.text newn0.tail
              newn0.readable newn0.children
            let root' := replaceNid n.nid newn st'.root
            select_scorable flags fuel { st' with root := root' }
              (toScore ++ [n.nid, newn.nid]) g'
          else
            let (newn, scored, g') := paragraphize_text g n
            let root' := replaceNid n.nid newn st'.root
            select_scorable flags fuel { st' with root := root' }
              (toScore ++ scored) g'
        else
          select_scorable flags fuel st' toScore g
termination_by structural fuel st toScore g => fuel

/-- The score increment `node.readable.score += s`.  At every use the
bag exists (the node was just initialized when missing), so the
`getD 0` default is never observable. -/
def addScoreNid (i : Nat) (s : Rat) : Node → Node :=
  updateNid i (fun n =>
    .mk n.nid n.tag n.attrs n.text n.tail (some (n.readable.getD 0 + s)) n.children)

/-- `1 + len(text.split(',')) + min(math.floor(len(text)/100.0), 3)`
(lines 424-427). -/
def scoreFormula (text : String) : Rat :=
  1 + (pySplitLen text ',' : Rat) + ((min (text.length / 100) 3 : Nat) : Rat)

/-- One iteration of the scoring loop of `score_paras` (lines 406-430).
A `to_score` reference whose subtree was detached from the working tree
has no id in the tree; the reachable detached entries are exactly the
replaced `div` originals, whose parent pointer is `None`, so they take
the same `parent is None` skip as in the source. -/
def score_paras_step (flags : Nat) (acc : Node × List Nat) (i : Nat) :
    Node × List Nat :=
  let (t, cands) := acc
  match findByNid i t with
  | none => (t, cands)
  | some n =>
    match parentByNid i t with
    | none => (t, cands)
    | some parent =>
      let gparent := parentByNid parent.nid t
      let text := get_inner_text true n
      if text.length < 25 then (t, cands)
      else
        let tc :=
          if parent.readable = none then
            (updateNid parent.nid (init_node flags) t, cands ++ [parent.nid])
          else (t, cands)
        let tc :=
          match gparent with
          | some gp =>
            if gp.readable = none then
              (updateNid gp.nid (init_node flags) tc.1, tc.2 ++ [gp.nid])
            else tc
          | none => tc
        let score := scoreFormula text
        let t := addScoreNid parent.nid score tc.1
        let t :=
          match gparent with
          | some gp => addScoreNid gp.nid (score / 2) t
          | none => t
        (t, tc.2)

/-- The candidate-building and scoring loop of `score_paras`
(lines 403-432), before the hand-off to `_select_top`. -/
def score_paras_fold (flags : Nat) (t : Node) (nodes : List Nat) :
    Node × List Nat :=
  nodes.foldl (score_paras_step flags) (t, [])

/-- Error value modelling the uncaught Python `AttributeError` raised by
`top.getparent().getchildren()` when `top` has no parent (line 461). -/
def pyNoneGetchildren : String :=
  "AttributeError: NoneType object has no attribute getchildren"

/-- `_select_top(candidates, body)` (lines 436-509).  Fallible Python
code is modelled with `Except`: the single unguarded spot is the
`top.getparent()` dereference, which raises when `top` is the tree root.
Float constants 0.2 are modelled by 1/5 (0.25 is exact). -/
def select_top (flags g : Nat) (t : Node) (cands : List Nat) (bodyNid : Nat) :
    Except String (Node × Nat) :=
  -- line 439-445: discount scores by link density and pick the running top
  let st := cands.foldl
    (fun (st : Node × Option Nat) cid =>
      let (t, topOpt) := st
      match findByNid cid t with
      | none => (t, topOpt)
      | some n =>
        let newScore := n.readable.getD 0 * (1 - get_link_density n)
        let t := updateNid cid (fun m =>
          .mk m.nid m.tag m.attrs m.text m.tail (some newScore) m.children) t
        match topOpt with
        | none => (t, some cid)
        | some topId =>
          let topScore := match findByNid topId t with
            | some m => m.readable.getD 0
            | none => 0
          (t, if newScore > topScore then some cid else topOpt))
    (t, none)
  let t := st.1
  -- line 448: content = Element('div')
  let contentNid := g
  let g := g + 1
  -- line 449-455: body fallback
  let fallbackNeeded :=
    match st.2 with
    | none => true
    | some tid =>
      match findByNid tid t with
      | some tn => tn.tag = "body"
      | none => false
  let (t, topId, g) :=
    if fallbackNeeded then
      let divId := g
      let t := updateNid bodyNid (fun b =>
        .mk b.nid b.tag b.attrs b.text b.tail b.readable
          [Node.mk divId "div" [] "" "" none b.children]) t
      let t := updateNid divId (init_node flags) t
      let t := updateNid bodyNid (init_node flags) t
      (t, divId, g + 1)
    else (t, st.2.getD 0, g)
  let topNode := findByNid topId t
  let topScore := match topNode with
    | some m => m.readable.getD 0
    | none => 0
  -- line 458
  let sibThresh : Rat := max 10 (topScore * (1/5 : Rat))
  -- line 461: top.getparent() — None for the tree root
  match parentByNid topId t with
  | none => Except.error pyNoneGetchildren
  | some par =>
    let topClass := match topNode with
      | some m => m.getAttr "class"
      | none => ""
    let content := Node.mk contentNid "div" [] "" "" none
      (par.children.foldl
        (fun (cacc : List Node) n =>
          let app0 := n.nid = topId
          let bonus : Rat :=
            if n.getAttr "class" = topClass ∧ topClass ≠ "" then
              topScore * (1/5 : Rat)
            else 0
          let app1 := app0 ∨ (n.readable ≠ none ∧ n.readable.getD 0 + bonus ≥ sibThresh)
          let app2 :=
            if n.tag = "p" then
              let ld := get_link_density n
              let textLen := (get_inner_text true n).length
              app1 ∨ (textLen > 80 ∧ ld < (1/4 : Rat)) ∨
                (textLen < 80 ∧ ld = 0 ∧ reSentSearch (get_inner_text true n))
            else app1
          if app2 then
            cacc ++ [if n.tag ≠ "div" ∧ n.tag ≠ "p" then
                       Node.mk n.nid "div" n.attrs n.text n.tail n.readable n.children
                     else n]
          else cacc)
        [])
    Except.ok (prep_article flags content, g)

/-- `score_paras(nodes, body)` (lines 403-432 plus the `_select_top`
hand-off). -/
def score_paras (flags g : Nat) (t : Node) (nodes : List Nat)
    (bodyNid : Nat) : Except String (Node × Nat) :=
  let (t', cands) := score_paras_fold flags t nodes
  select_top flags g t' cands bodyNid

/-- `prep_document(data)` (lines 212-232) from the point after parsing
and external cleaning (both supplied by lxml, outside the core): find or
synthesize `<body>`, tag it `readableBody`, drop its non-`body` siblings
and run `convert_brs` on it.  Returns the tree, the body id and the id
counter. -/
def prep_document_post (g : Nat) (tree : Node) : Node × Nat × Nat :=
  let (tree, bodyNid, g) :=
    match tree.children.find? (fun c => c.tag = "body") with
    | some b => (tree, b.nid, g)
    | none =>
      (Node.mk tree.nid tree.tag tree.attrs tree.text tree.tail tree.readable
        [Node.mk g "body" [] "" "" none tree.children], g, g + 1)
  let tree := updateNid bodyNid (fun b => b.setAttr "id" "readableBody") tree
  let tree := Node.mk tree.nid tree.tag tree.attrs tree.text tree.tail
    tree.readable (tree.children.filter (fun c => c.tag = "body"))
  match findByNid bodyNid tree with
  | none => (tree, bodyNid, g)
  | some b =>
    let (b', g') := convert_brs g false b
    (replaceNid bodyNid b' tree, b'.nid, g')

/-- `_grab_article(data)` (lines 289-302) from the parsed and cleaned
tree: document prep, scorable selection over the body's descendants,
scoring and top selection. -/
def grab_one_pass (flags g fuel : Nat) (tree : Node) :
    Except String (Node × Nat) :=
  let (tree, bodyNid, g) := prep_document_post g tree
  match findByNid bodyNid tree with
  | none => Except.error "unreachable: body not found"
  | some body =>
    let (toScore, body', g) := select_scorable flags fuel (nodeIterInit body) [] g
    let tree := replaceNid bodyNid body' tree
    score_paras flags g tree toScore bodyNid

/-- `self.flags &= ~flag` on the non-negative instance flag state:
clearing the bits of `f` equals subtracting the common bits. -/
def pyClearBits (x f : Nat) : Nat := x - (x &&& f)

/-- The relaxation loop of `grab_article` (lines 513-527) over the flag
queue.  The source copies `FLAGS`, reverses it and pops from the end,
which processes `FLAGS` in its original order.  `grabOne fl` stands for
`self._grab_article(data)` run with instance flag state `fl`: the pass
re-parses the original input, so it is a pure function of the flag
state (`data` is fixed).  When the queue becomes empty after a pop the
loop breaks and returns that pass's content; otherwise the content's
unnormalized inner text must reach 250 characters to return early. -/
def grabGo (grabOne : Nat → Node) : List Nat → Nat → Node × Nat
  | [], fl => (grabOne fl, fl)
  | [q], fl =>
    let fl := pyClearBits fl q
    (grabOne fl, fl)
  | q :: q2 :: rest, fl =>
    let fl := pyClearBits fl q
    let content := grabOne fl
    if (get_inner_text false content).length < 250 then
      grabGo grabOne (q2 :: rest) fl
    else (content, fl)
termination_by structural l fl => l

/-- `grab_article(data)` (lines 513-527): the relaxation loop started on
the instance flag state (`__init__` sets `self.flags = 0xFFFF`).
Returns the content together with the final instance flag state. -/
def grab_article (grabOne : Nat → Node) (selfFlags : Nat) : Node × Nat :=
  grabGo grabOne FLAGS selfFlags

/-! Concrete input trees used by witnesses and counterexamples. -/

/-- Model of the lxml parse of `<div><a>x</a> <a>y</a></div>`:
the first link carries the single-space tail between the two links. -/
def cexA1 : Node := .mk 1 "a" [] "x" " " none []
def cexA2 : Node := .mk 2 "a" [] "y" "" none []
def cexLinkDiv : Node := .mk 0 "div" [] "" "" none [cexA1, cexA2]

/-- An empty `<div>` element. -/
def wEmptyDiv : Node := .mk 0 "div" [] "" "" none []

/-- A stray `<p>` carrying text and no `img`/`embed`/`object`
descendant, inside a content `<div>` (model of the parse of
`<div><p>hello world plain text</p></div>`). -/
def wStrayP : Node := .mk 1 "p" [] "hello world plain text" "" none []
def wStrayContent : Node := .mk 0 "div" [] "" "" none [wStrayP]

/-- A video `<object>` (YouTube url attribute) nested inside a plain
`<object>`, inside a `<div>` — model of the parse of
`<div><object><object data="http://youtube.com/v/x"></object></object></div>`. -/
def cexVideoObj : Node := .mk 2 "object" [("data", "http://youtube.com/v/x")] "" "" none []
def cexOuterObj : Node := .mk 1 "object" [] "" "" none [cexVideoObj]
def cexObjDiv : Node := .mk 0 "div" [] "" "" none [cexOuterObj]

/-- Model of the lxml parse (after the external cleaner) of
`<html class="article" id="main"><body><p>Some plain paragraph text
longer than twenty five characters.</p></body></html>`.  (An empty
`<head>` inserted by the parser would be dropped by the sibling sweep of
`prep_document` and is omitted.) -/
def wCrashP : Node := .mk 2 "p" []
  "Some plain paragraph text longer than twenty five characters." "" none []
def wCrashBody : Node := .mk 1 "body" [] "" "" none [wCrashP]
def wCrashHtml : Node :=
  .mk 0 "html" [("class", "article"), ("id", "main")] "" "" none [wCrashBody]

/-- A node whose `class` matches both the NEGATIVE (`comment`) and the
POSITIVE (`article`) pattern. -/
def wBothClass : Node := .mk 0 "div" [("class", "comment-article")] "" "" none []

/-- A br-free tree: model of `<div><p>one</p><p>two</p></div>`. -/
def wBrFreeP1 : Node := .mk 1 "p" [] "one" "" none []
def wBrFreeP2 : Node := .mk 2 "p" [] "two" "" none []
def wBrFreeDiv : Node := .mk 0 "div" [] "" "" none [wBrFreeP1, wBrFreeP2]

/-- `f` edits a node in place without renaming it or touching its
children (true of every field update the source performs on live
references). -/
def PreservesShape (f : Node → Node) : Prop :=
  ∀ m, (f m).nid = m.nid ∧ (f m).children = m.children

/-- The `readable` annotation of the live node with id `i`: `none` when
no such node, `some none` when the node exists but carries no bag. -/
def findReadable (t : Node) (i : Nat) : Option (Option Rat) :=
  (findByNid i t).map Node.readable

/-- The own (non-children) observable fields of a node: id, tag,
attributes and the `readable` bag. -/
def nodeOwn (m : Node) : Nat × String × List (String × String) × Option Rat :=
  (m.nid, m.tag, m.attrs, m.readable)

/-- The initial score a fresh `initialize_node` bag holds: the tag-based
base score plus the class weight. -/
def initScoreOf (flags : Nat) (m : Node) : Rat :=
  (((if m.tag = "div" then 5
     else if m.tag ∈ ["pre", "td", "blockquote"] then 3
     else if m.tag ∈ ["address", "ol", "ul", "dl", "dd", "dt", "li", "form"] then -3
     else if m.tag ∈ ["h1", "h2", "h3", "h4", "h5", "h6", "th"] then -5
     else 0) + get_class_weight flags m : Int) : Rat)

/-- The score held by `m`, after initializing it when unscored (what the
scoring loop's `+=` starts from). -/
def baseScoreOf (flags : Nat) (m : Node) : Rat :=
  match m.readable with
  | some s => s
  | none => initScoreOf flags m

mutual

/-- Spec-side description of `clean` (for the amended C7): prune
top-down, dropping every `tag`-tagged node that is not video-exempt
together with its whole subtree (so a video-exempt node nested inside a
dropped one disappears too), and recursing into kept nodes. -/
def cleanRecF (tag : String) (isEmb : Bool) : List Node → List Node
  | [] => []
  | .mk i t a x l r cs :: rest =>
    if t = tag ∧ ¬ (isEmb && videoAttrsMatch (.mk i t a x l r cs)) = true then
      cleanRecF tag isEmb rest
    else
      .mk i t a x l r (cleanRecN tag isEmb (.mk i t a x l r cs)) ::
        cleanRecF tag isEmb rest
termination_by structural l => l

def cleanRecN (tag : String) (isEmb : Bool) : Node → List Node
  | .mk _ _ _ _ _ _ cs => cleanRecF tag isEmb cs
termination_by structural n => n

end

def cleanRec (node : Node) (tag : String) : Node :=
  .mk node.nid node.tag node.attrs node.text node.tail node.readable
    (cleanRecF tag (tag = "object" || tag = "embed") node.children)

mutual

/-- Prune by id set: drop every node whose id is in `S`, with its
subtree. -/
def pruneMemF (S : List Nat) : List Node → List Node
  | [] => []
  | .mk i t a x l r cs :: rest =>
    if i ∈ S then pruneMemF S rest
    else .mk i t a x l r (pruneMemN S (.mk i t a x l r cs)) :: pruneMemF S rest
termination_by structural l => l

def pruneMemN (S : List Nat) : Node → List Node
  | .mk _ _ _ _ _ _ cs => pruneMemF S cs
termination_by structural n => n

end

def pruneMem (S : List Nat) (t : Node) : Node :=
  .mk t.nid t.tag t.attrs t.text t.tail t.readable (pruneMemF S t.children)

/-- Helper: the relaxation loop unfolded from the all-on state. -/
theorem grabGo_from_ffff (grabOne : Nat → Node) :
    grabGo grabOne [0, 1, 2, 4] 0xFFFF =
      (let c1 := grabOne 0xFFFF
       if (get_inner_text false c1).length < 250 then
         let c2 := grabOne 0xFFFE
         if (get_inner_text false c2).length < 250 then
           let c3 := grabOne 0xFFFC
           if (get_inner_text false c3).length < 250 then (grabOne 0xFFF8, 0xFFF8)
           else (c3, 0xFFFC)
         else (c2, 0xFFFE)
       else (c1, 0xFFFF)) := by
  have h0 : pyClearBits 0xFFFF 0 = 0xFFFF := by decide
  have h1 : pyClearBits 0xFFFF 1 = 0xFFFE := by decide
  have h2 : pyClearBits 0xFFFE 2 = 0xFFFC := by decide
  have h3 : pyClearBits 0xFFFC 4 = 0xFFF8 := by decide
  simp only [grabGo, h0, h1, h2, h3]

/-- C1: `grab_article` runs at most four passes, clearing one flag of
`FLAGS = [NONE, STRIP_UNLIKELY, CLASS_WEIGHT, CLEAN_CONDITIONALLY]` per
pass from the all-on state `0xFFFF` (so the flag states used are
`0xFFFF, 0xFFFE, 0xFFFC, 0xFFF8` in order, the first pass running with
all three extraction flags enabled); after each pass except the last it
computes the length of `get_inner_text` with `normalize = false` on that
pass's content and returns the content as soon as the length reaches
250; after the fourth pass it returns that content unconditionally.
Each pass is `grabOne` applied to the flag state only: `_grab_article`
re-parses the original input, so passes accumulate no mutations. -/
theorem grab_article_relaxation_loop (grabOne : Nat → Node) :
    grab_article grabOne 0xFFFF =
      (let c1 := grabOne 0xFFFF
       if (get_inner_text false c1).length < 250 then
         let c2 := grabOne 0xFFFE
         if (get_inner_text false c2).length < 250 then
           let c3 := grabOne 0xFFFC
           if (get_inner_text false c3).length < 250 then (grabOne 0xFFF8, 0xFFF8)
           else (c3, 0xFFFC)
         else (c2, 0xFFFE)
       else (c1, 0xFFFF)) := by
  show grabGo grabOne [0, 1, 2, 4] 0xFFFF = _
  exact grabGo_from_ffff grabOne

/-- C10: `grab_article` only ever clears flag bits of the instance state
(initialized to `0xFFFF` by `__init__`) and never restores them: the
final state is one of `0xFFFF, 0xFFFE, 0xFFFC, 0xFFF8`; when the
relaxation queue is exhausted (all three length checks fall short of
250) the final state is `0xFFF8`, with `STRIP_UNLIKELY`, `CLASS_WEIGHT`
and `CLEAN_CONDITIONALLY` all cleared; and any subsequent invocation on
that state runs every pass with flag state `0xFFF8` (returning
`grabOne 0xFFF8` whichever pass wins) and leaves the state at `0xFFF8`,
so the all-flags-on first pass can only happen on a fresh instance. -/
theorem grab_article_flags_never_restored (grabOne : Nat → Node) :
    ((grab_article grabOne 0xFFFF).2 = 0xFFFF ∨
     (grab_article grabOne 0xFFFF).2 = 0xFFFE ∨
     (grab_article grabOne 0xFFFF).2 = 0xFFFC ∨
     (grab_article grabOne 0xFFFF).2 = 0xFFF8) ∧
    ((get_inner_text false (grabOne 0xFFFF)).length < 250 →
     (get_inner_text false (grabOne 0xFFFE)).length < 250 →
     (get_inner_text false (grabOne 0xFFFC)).length < 250 →
      (grab_article grabOne 0xFFFF).2 = 0xFFF8) ∧
    grab_article grabOne 0xFFF8 = (grabOne 0xFFF8, 0xFFF8) ∧
    0xFFF8 &&& FLAG_STRIP_UNLIKELY = 0 ∧
    0xFFF8 &&& FLAG_CLASS_WEIGHT = 0 ∧
    0xFFF8 &&& FLAG_CLEAN_CONDITIONALLY = 0 := by
  have hrun : grab_article grabOne 0xFFFF = _ := grabGo_from_ffff grabOne
  have h0 : pyClearBits 0xFFF8 0 = 0xFFF8 := by decide
  have h1 : pyClearBits 0xFFF8 1 = 0xFFF8 := by decide
  have h2 : pyClearBits 0xFFF8 2 = 0xFFF8 := by decide
  have h3 : pyClearBits 0xFFF8 4 = 0xFFF8 := by decide
  refine ⟨?_, ?_, ?_, by decide, by decide, by decide⟩
  · rw [hrun]
    dsimp only
    split
    · split
      · split
        · exact Or.inr (Or.inr (Or.inr rfl))
        · exact Or.inr (Or.inr (Or.inl rfl))
      · exact Or.inr (Or.inl rfl)
    · exact Or.inl rfl
  · intro l1 l2 l3
    rw [hrun]
    dsimp only
    simp only [if_pos l1, if_pos l2, if_pos l3]
  · show grabGo grabOne [0, 1, 2, 4] 0xFFF8 = _
    simp only [grabGo, h0, h1, h2, h3, ite_self]

/-- Witness for C10: a pipeline that always produces an empty `<div>`
exhausts the relaxation queue and leaves the flag state at `0xFFF8`. -/
theorem grab_article_flags_never_restored_witness :
    (grab_article (fun _ => wEmptyDiv) 0xFFFF).2 = 0xFFF8 :=
  (grab_article_flags_never_restored (fun _ => wEmptyDiv)).2.1
    (by decide) (by decide) (by decide)

/-- Helper: the independent-contribution form of `get_class_weight`. -/
def classWeightSum (flags : Nat) (n : Node) : Int :=
  if flags &&& FLAG_CLASS_WEIGHT = 0 then 0 else
    ((if (get_clsid n).1 ≠ "" then
        (if reSearch reNegativeToks (get_clsid n).1 then (-25 : Int) else 0)
      else 0) +
     (if (get_clsid n).1 ≠ "" then
        (if reSearch rePositiveToks (get_clsid n).1 then (25 : Int) else 0)
      else 0)) +
    ((if (get_clsid n).2 ≠ "" then
        (if reSearch reNegativeToks (get_clsid n).2 then (-25 : Int) else 0)
      else 0) +
     (if (get_clsid n).2 ≠ "" then
        (if reSearch rePositiveToks (get_clsid n).2 then (25 : Int) else 0)
      else 0))

/-- Helper: `get_class_weight` equals its independent-contribution form. -/
theorem get_class_weight_eq_sum (flags : Nat) (n : Node) :
    get_class_weight flags n = classWeightSum flags n := by
  unfold get_class_weight classWeightSum
  dsimp only
  split_ifs <;> omega

/-- C6: `get_class_weight` returns 0 when the `CLASS_WEIGHT` flag is
off; otherwise it is the sum of independent −25/+25 contributions from
the `class` attribute (NEGATIVE and POSITIVE matches, both possible at
once) and from the `id` attribute; the result always lies in
[−50, +50]. -/
theorem get_class_weight_spec (flags : Nat) (n : Node) :
    (flags &&& FLAG_CLASS_WEIGHT = 0 → get_class_weight flags n = 0) ∧
    (flags &&& FLAG_CLASS_WEIGHT ≠ 0 →
      get_class_weight flags n =
        ((if (get_clsid n).1 ≠ "" then
            (if reSearch reNegativeToks (get_clsid n).1 then (-25 : Int) else 0)
          else 0) +
         (if (get_clsid n).1 ≠ "" then
            (if reSearch rePositiveToks (get_clsid n).1 then (25 : Int) else 0)
          else 0)) +
        ((if (get_clsid n).2 ≠ "" then
            (if reSearch reNegativeToks (get_clsid n).2 then (-25 : Int) else 0)
          else 0) +
         (if (get_clsid n).2 ≠ "" then
            (if reSearch rePositiveToks (get_clsid n).2 then (25 : Int) else 0)
          else 0))) ∧
    -50 ≤ get_class_weight flags n ∧ get_class_weight flags n ≤ 50 := by
  have he := get_class_weight_eq_sum flags n
  unfold classWeightSum at he
  refine ⟨fun h => by rw [he, if_pos h], fun h => by rw [he, if_neg h], ?_, ?_⟩ <;>
    rw [he] <;> split_ifs <;> omega

/-- Witness for C6: with the flag off the weight is 0; with all flags on
a `class` matching both NEGATIVE (`comment`) and POSITIVE (`article`)
contributes −25 + 25. -/
theorem get_class_weight_spec_witness :
    get_class_weight 0 wBothClass = 0 ∧
    get_class_weight 0xFFFF wBothClass = ((-25 : Int) + 25) + (0 + 0) :=
  ⟨(get_class_weight_spec 0 wBothClass).1 (by decide),
   by
    have h := (get_class_weight_spec 0xFFFF wBothClass).2.1 (by decide)
    rw [h]
    have c1 : (get_clsid wBothClass).1 = "comment-article" := by rfl
    have c2 : (get_clsid wBothClass).2 = "" := by rfl
    rw [c1, c2]
    norm_num
    decide⟩

unseal Rat.add Rat.mul Rat.inv Rat.sub in
/-- Counterexample for C4: on `<div><a>x</a> <a>y</a></div>` the link
density is 5/4 > 1 — the space tail of the first link is counted (with
its prepended space, separately normalized) in the links' sum, while
the node-level normalization collapses it once. -/
theorem get_link_density_gt_one :
    get_link_density cexLinkDiv = 5/4 ∧ ¬ get_link_density cexLinkDiv ≤ 1 := by
  constructor <;> decide

/-- C4 (amended): `get_link_density` is nonnegative and returns 0
whenever the node's normalized inner text is empty; it is the sum of
the `<a>` descendants' normalized inner-text lengths divided by the
node's own normalized inner-text length, but it is not bounded by 1. -/
theorem get_link_density_nonneg (n : Node) :
    0 ≤ get_link_density n ∧
    ((get_inner_text true n).length = 0 → get_link_density n = 0) := by
  constructor
  · unfold get_link_density
    dsimp only
    split
    · exact le_refl 0
    · apply div_nonneg
      · apply List.sum_nonneg
        intro x hx
        obtain ⟨l, -, rfl⟩ := List.mem_map.mp hx
        exact Nat.cast_nonneg _
      · exact Nat.cast_nonneg _
  · intro h
    simp [get_link_density, h]

/-- Witness for C4 (amended): the empty `<div>` has empty inner text and
link density 0. -/
theorem get_link_density_nonneg_witness :
    0 ≤ get_link_density wEmptyDiv ∧ get_link_density wEmptyDiv = 0 :=
  ⟨(get_link_density_nonneg wEmptyDiv).1,
   (get_link_density_nonneg wEmptyDiv).2 (by decide)⟩

/-- Helper: the stray-paragraph sweep of `prep_article` removes nothing,
because the source compares xpath result lists with the integer 0. -/
theorem strayPhase_id (c : Node) : strayPhase c = c := by
  unfold strayPhase
  generalize (c.descendants.filter (fun n => n.tag = "p")) = l
  induction l generalizing c with
  | nil => rfl
  | cons h t ih =>
    rw [List.foldl_cons]
    simp only [pyEqListInt, Bool.false_and]
    exact ih c

/-- C2 (code bug): the stray-paragraph removal at the end of
`prep_article` never removes anything: the source compares the xpath
result object with `0` (`num_img == 0`), which is always false for a
Python list, so the sweep is the identity.  On the concrete content
`<div><p>hello world plain text</p></div>` the whole of `prep_article`
keeps the paragraph, although it has non-empty inner text and no
`img`/`embed`/`object` descendant — the spec says it must be removed. -/
theorem prep_article_keeps_stray_paragraph :
    (∀ c : Node, strayPhase c = c) ∧
    prep_article 0xFFFF wStrayContent = wStrayContent ∧
    wStrayP ∈ (prep_article 0xFFFF wStrayContent).descendants ∧
    get_inner_text false wStrayP ≠ "" ∧
    (wStrayP.descendants.filter (fun d => d.tag = "img")).length = 0 ∧
    (wStrayP.descendants.filter (fun d => d.tag = "embed")).length = 0 ∧
    (wStrayP.descendants.filter (fun d => d.tag = "object")).length = 0 := by
  refine ⟨strayPhase_id, by rfl, ?_, by decide, by decide, by decide, by decide⟩
  have h : (prep_article 0xFFFF wStrayContent).descendants = [wStrayP] := by rfl
  rw [h]
  exact List.mem_singleton_self _

/-- Counterexample for C7: in
`<div><object><object data="http://youtube.com/v/x"></object></object></div>`
the inner `<object>` matches the Video URL Regex, yet
`clean(div, "object")` leaves nothing behind: the non-video outer
`<object>` is removed first and takes the video one with it. -/
theorem clean_removes_nested_video :
    cexVideoObj ∈ cexObjDiv.descendants ∧ cexVideoObj.tag = "object" ∧
    videoAttrsMatch cexVideoObj = true ∧
    (clean cexObjDiv "object").descendants = [] := by
  refine ⟨?_, rfl, by decide, by rfl⟩
  have h : cexObjDiv.descendants = [cexOuterObj, cexVideoObj] := by rfl
  rw [h]
  exact List.mem_cons_of_mem _ (List.mem_singleton_self _)

/-- Helper: unfold `findByNid` through the accessors. -/
theorem findByNid_eq (i : Nat) (m : Node) :
    findByNid i m = if m.nid = i then some m else findInF i m.children := by
  cases m; rfl

/-- Helper: unfold `updateNid` through the accessors. -/
theorem updateNid_eq (i : Nat) (f : Node → Node) (m : Node) :
    updateNid i f m =
      if m.nid = i then f m
      else Node.mk m.nid m.tag m.attrs m.text m.tail m.readable
        (updateNidF i f m.children) := by
  cases m; rfl

mutual

/-- Helper: updating the live node with id `i` in place is observed
exactly as mapping `f` over the result of looking it up. -/
theorem findByNid_updateNid_self (i : Nat) (f : Node → Node)
    (hf : PreservesShape f) :
    ∀ t, findByNid i (updateNid i f t) = (findByNid i t).map f
  | .mk j tg a x l r cs => by
    by_cases h : j = i
    · simp only [updateNid, if_pos h]
      rw [findByNid_eq, (hf (Node.mk j tg a x l r cs)).1]
      simp only [findByNid, Node.nid, if_pos h]
      rfl
    · simp only [updateNid, if_neg h, findByNid]
      exact findInF_updateNidF_self i f hf cs
termination_by structural t => t

theorem findInF_updateNidF_self (i : Nat) (f : Node → Node)
    (hf : PreservesShape f) :
    ∀ l, findInF i (updateNidF i f l) = (findInF i l).map f
  | [] => rfl
  | c :: rest => by
    show findInF i (updateNid i f c :: updateNidF i f rest) = _
    simp only [findInF]
    rw [findByNid_updateNid_self i f hf c]
    cases findByNid i c with
    | none => simpa using findInF_updateNidF_self i f hf rest
    | some n => rfl
termination_by structural l => l

end

mutual

/-- Helper: an in-place update of node `i` does not change what is
observed at any other id `j` (the looked-up node may differ below `j`,
but its own fields are unchanged). -/
theorem findOwn_updateNid_ne (i j : Nat) (f : Node → Node)
    (hf : PreservesShape f) (hji : j ≠ i) :
    ∀ t, (findByNid j (updateNid i f t)).map nodeOwn =
      (findByNid j t).map nodeOwn
  | .mk k tg a x l r cs => by
    by_cases hki : k = i
    · have hkj : ¬ k = j := by rw [hki]; exact fun hh => hji hh.symm
      simp only [updateNid, if_pos hki]
      rw [findByNid_eq, (hf (Node.mk k tg a x l r cs)).1,
        (hf (Node.mk k tg a x l r cs)).2]
      simp only [findByNid, Node.nid, Node.children, if_neg hkj]
    · by_cases hkj : k = j
      · simp only [updateNid, if_neg hki, findByNid, if_pos hkj, Option.map_some]
        rfl
      · simp only [updateNid, if_neg hki, findByNid, if_neg hkj]
        exact findOwn_updateNidF_ne i j f hf hji cs
termination_by structural t => t

theorem findOwn_updateNidF_ne (i j : Nat) (f : Node → Node)
    (hf : PreservesShape f) (hji : j ≠ i) :
    ∀ l, (findInF j (updateNidF i f l)).map nodeOwn =
      (findInF j l).map nodeOwn
  | [] => rfl
  | c :: rest => by
    show (findInF j (updateNid i f c :: updateNidF i f rest)).map nodeOwn = _
    simp only [findInF]
    have hc := findOwn_updateNid_ne i j f hf hji c
    cases h1 : findByNid j (updateNid i f c) with
    | some m =>
      cases h2 : findByNid j c with
      | some mm =>
        rw [h1, h2] at hc
        simpa using hc
      | none => rw [h1, h2] at hc; simp at hc
    | none =>
      cases h2 : findByNid j c with
      | some mm => rw [h1, h2] at hc; simp at hc
      | none => exact findOwn_updateNidF_ne i j f hf hji rest
termination_by structural l => l

end

/-- Helper: `nodeOwn` equality componentwise. -/
theorem nodeOwn_eq_iff (m mm : Node) :
    nodeOwn m = nodeOwn mm ↔
      m.nid = mm.nid ∧ m.tag = mm.tag ∧ m.attrs = mm.attrs ∧
        m.readable = mm.readable := by
  unfold nodeOwn
  constructor
  · intro h
    exact ⟨congrArg (·.1) h, congrArg (·.2.1) h, congrArg (·.2.2.1) h,
      congrArg (·.2.2.2) h⟩
  · rintro ⟨h1, h2, h3, h4⟩
    rw [h1, h2, h3, h4]

/-- Helper: the `readable` observation, derived from the own-fields
observation. -/
theorem findReadable_updateNid_ne (i j : Nat) (f : Node → Node)
    (hf : PreservesShape f) (hji : j ≠ i) (t : Node) :
    findReadable (updateNid i f t) j = findReadable t j := by
  unfold findReadable
  have h := findOwn_updateNid_ne i j f hf hji t
  cases h1 : findByNid j (updateNid i f t) with
  | some m =>
    cases h2 : findByNid j t with
    | some mm =>
      rw [h1, h2] at h
      simp only [Option.map_some'] at h ⊢
      rw [((nodeOwn_eq_iff m mm).mp (by simpa using h)).2.2.2]
    | none => rw [h1, h2] at h; simp at h
  | none =>
    cases h2 : findByNid j t with
    | some mm => rw [h1, h2] at h; simp at h
    | none => rfl

/-- Helper: `initialize_node` only writes the `readable` bag. -/
theorem init_node_shape (flags : Nat) : PreservesShape (init_node flags) :=
  fun _ => ⟨rfl, rfl⟩

/-- Helper: the score increment only writes the `readable` bag. -/
theorem addScore_shape (s : Rat) : PreservesShape (fun n =>
    Node.mk n.nid n.tag n.attrs n.text n.tail
      (some (n.readable.getD 0 + s)) n.children) :=
  fun _ => ⟨rfl, rfl⟩

/-- Helper: observing the `readable` bag at `j` after a score increment
at `j`. -/
theorem findReadable_addScore_self (j : Nat) (s : Rat) (t : Node) :
    findReadable (addScoreNid j s t) j =
      (findByNid j t).map (fun m => some (m.readable.getD 0 + s)) := by
  unfold findReadable addScoreNid
  rw [findByNid_updateNid_self j _ (addScore_shape s)]
  cases findByNid j t <;> rfl

/-- Helper: observing the `readable` bag elsewhere after a score
increment. -/
theorem findReadable_addScore_ne (i j : Nat) (s : Rat) (t : Node)
    (h : j ≠ i) :
    findReadable (addScoreNid i s t) j = findReadable t j := by
  unfold findReadable addScoreNid
  exact findReadable_updateNid_ne i j _ (addScore_shape s) h t

/-- Helper: the bag written by `initialize_node` holds `initScoreOf`. -/
theorem init_node_readable_val (flags : Nat) (m : Node) :
    (init_node flags m).readable = some (initScoreOf flags m) := rfl

/-- Helper: `initScoreOf` depends only on the node's tag and attributes. -/
theorem initScoreOf_congr (flags : Nat) (m mm : Node)
    (htag : m.tag = mm.tag) (hattrs : m.attrs = mm.attrs) :
    initScoreOf flags m = initScoreOf flags mm := by
  unfold initScoreOf get_class_weight get_clsid Node.getAttr
  rw [htag, hattrs]

/-- Helper: `baseScoreOf` depends only on the node's own fields. -/
theorem baseScoreOf_congr (flags : Nat) (m mm : Node)
    (h : nodeOwn m = nodeOwn mm) :
    baseScoreOf flags m = baseScoreOf flags mm := by
  obtain ⟨-, htag, hattrs, hr⟩ := (nodeOwn_eq_iff m mm).mp h
  unfold baseScoreOf
  rw [hr, initScoreOf_congr flags m mm htag hattrs]

/-- Helper: observing the bag at `j` right after initializing `j`. -/
theorem findReadable_init_self (flags j : Nat) (t m : Node)
    (hm : findByNid j t = some m) :
    findReadable (updateNid j (init_node flags) t) j =
      some (some (initScoreOf flags m)) := by
  unfold findReadable
  rw [findByNid_updateNid_self _ _ (init_node_shape flags), hm]
  simp only [Option.map_some', init_node_readable_val]

/-- Helper: `findReadable` through a successful lookup. -/
theorem findReadable_of_find {j : Nat} {t m : Node}
    (hm : findByNid j t = some m) : findReadable t j = some m.readable := by
  unfold findReadable
  rw [hm]
  rfl

/-- Helper: the parent's bag after the two score increments. -/
theorem addScores_parent_obs (S : Rat) (u : Node) (gpn pn : Nat)
    (pbase : Rat) (hne : gpn ≠ pn)
    (F1 : findReadable u pn = some (some pbase)) :
    findReadable (addScoreNid gpn (S/2) (addScoreNid pn S u)) pn =
      some (some (pbase + S)) := by
  rw [findReadable_addScore_ne gpn pn _ _ (Ne.symm hne),
    findReadable_addScore_self]
  unfold findReadable at F1
  cases hf : findByNid pn u with
  | none => rw [hf] at F1; simp at F1
  | some m =>
    rw [hf] at F1
    have hm : m.readable = some pbase := by simpa using F1
    simp [Option.map_some', hm]

/-- Helper: the grandparent's bag after the two score increments. -/
theorem addScores_gparent_obs (S : Rat) (u : Node) (gpn pn : Nat)
    (gbase : Rat) (hne : gpn ≠ pn)
    (F2 : findReadable u gpn = some (some gbase)) :
    findReadable (addScoreNid gpn (S/2) (addScoreNid pn S u)) gpn =
      some (some (gbase + S/2)) := by
  have F3 : findReadable (addScoreNid pn S u) gpn = some (some gbase) := by
    rw [findReadable_addScore_ne pn gpn _ _ hne]
    exact F2
  rw [findReadable_addScore_self]
  unfold findReadable at F3
  cases hf : findByNid gpn (addScoreNid pn S u) with
  | none => rw [hf] at F3; simp at F3
  | some m =>
    rw [hf] at F3
    have hm : m.readable = some gbase := by simpa using F3
    simp [Option.map_some', hm]

/-- Helper: observing the grandparent after initializing it on the live
tree (whose node may differ from the original only below itself). -/
theorem findReadable_init_live (flags j : Nat) (u : Node) (gp : Node)
    (hown : (findByNid j u).map nodeOwn = some (nodeOwn gp)) :
    findReadable (updateNid j (init_node flags) u) j =
      some (some (initScoreOf flags gp)) := by
  cases hm : findByNid j u with
  | none => rw [hm] at hown; simp at hown
  | some m2 =>
    rw [hm] at hown
    have h2 : nodeOwn m2 = nodeOwn gp := by simpa using hown
    rw [findReadable_init_self flags j u m2 hm]
    obtain ⟨-, htag, hattrs, -⟩ := (nodeOwn_eq_iff m2 gp).mp h2
    rw [initScoreOf_congr flags m2 gp htag hattrs]

/-- Helper: a node observed through `nodeOwn` equality has the same
`readable` bag. -/
theorem findReadable_of_own (u : Node) (j : Nat) (gp : Node)
    (hown : (findByNid j u).map nodeOwn = some (nodeOwn gp)) :
    findReadable u j = some gp.readable := by
  unfold findReadable
  cases hm : findByNid j u with
  | none => rw [hm] at hown; simp at hown
  | some m =>
    rw [hm] at hown
    have h2 : nodeOwn m = nodeOwn gp := by simpa using hown
    simp only [Option.map_some']
    rw [((nodeOwn_eq_iff m gp).mp h2).2.2.2]

/-- C3: one step of the scoring loop of `score_paras`.  A listed node
whose normalized inner text is shorter than 25 characters contributes
nothing to any score (the step returns the state unchanged); otherwise,
with a live parent, the parent's bag ends at its base score (its
previous score, or the fresh `initialize_node` score when it had none)
plus exactly `1 + len(text.split(',')) + min(floor(len(text)/100), 3)`,
and a live grandparent additionally ends at its own base score plus
exactly half that amount. -/
theorem score_paras_step_spec (flags : Nat) (t : Node) (cands : List Nat)
    (i : Nat) (n parent : Node)
    (hn : findByNid i t = some n)
    (hp : parentByNid i t = some parent)
    (hpf : findByNid parent.nid t = some parent) :
    ((get_inner_text true n).length < 25 →
      score_paras_step flags (t, cands) i = (t, cands)) ∧
    (25 ≤ (get_inner_text true n).length →
      (parentByNid parent.nid t = none →
        findReadable (score_paras_step flags (t, cands) i).1 parent.nid =
          some (some (baseScoreOf flags parent +
            scoreFormula (get_inner_text true n)))) ∧
      (∀ gp, parentByNid parent.nid t = some gp →
        findByNid gp.nid t = some gp → gp.nid ≠ parent.nid →
        findReadable (score_paras_step flags (t, cands) i).1 parent.nid =
          some (some (baseScoreOf flags parent +
            scoreFormula (get_inner_text true n))) ∧
        findReadable (score_paras_step flags (t, cands) i).1 gp.nid =
          some (some (baseScoreOf flags gp +
            scoreFormula (get_inner_text true n) / 2)))) := by
  constructor
  · intro hlt
    simp only [score_paras_step, hn, hp]
    rw [if_pos hlt]
  · intro hge
    have hnlt : ¬ (get_inner_text true n).length < 25 := not_lt.mpr hge
    constructor
    · intro hnog
      simp only [score_paras_step, hn, hp, hnog, if_neg hnlt]
      by_cases hpr : parent.readable = none
      · rw [if_pos hpr]
        rw [findReadable_addScore_self]
        rw [findByNid_updateNid_self _ _ (init_node_shape flags), hpf]
        have hbase : baseScoreOf flags parent = initScoreOf flags parent := by
          unfold baseScoreOf
          rw [hpr]
        rw [hbase]
        simp [Option.map_some', init_node_readable_val]
      · rw [if_neg hpr]
        obtain ⟨s, hr⟩ := Option.ne_none_iff_exists'.mp hpr
        have hbase : baseScoreOf flags parent = s := by
          unfold baseScoreOf
          rw [hr]
        rw [findReadable_addScore_self, hpf, hbase]
        simp [Option.map_some', hr]
    · intro gp hgp hgpf hne
      simp only [score_paras_step, hn, hp, hgp, if_neg hnlt]
      by_cases hpr : parent.readable = none
      · by_cases hgr : gp.readable = none
        · simp only [if_pos hpr, if_pos hgr]
          have F1 : findReadable (updateNid gp.nid (init_node flags)
              (updateNid parent.nid (init_node flags) t)) parent.nid =
              some (some (baseScoreOf flags parent)) := by
            rw [findReadable_updateNid_ne gp.nid parent.nid _
              (init_node_shape flags) (Ne.symm hne),
              findReadable_init_self flags parent.nid t parent hpf]
            have hb : baseScoreOf flags parent = initScoreOf flags parent := by
              unfold baseScoreOf
              rw [hpr]
            rw [hb]
          have F2 : findReadable (updateNid gp.nid (init_node flags)
              (updateNid parent.nid (init_node flags) t)) gp.nid =
              some (some (baseScoreOf flags gp)) := by
            have hown : (findByNid gp.nid
                (updateNid parent.nid (init_node flags) t)).map nodeOwn =
                some (nodeOwn gp) := by
              rw [findOwn_updateNid_ne parent.nid gp.nid _
                (init_node_shape flags) hne, hgpf]
              rfl
            rw [findReadable_init_live flags gp.nid _ gp hown]
            have hb : baseScoreOf flags gp = initScoreOf flags gp := by
              unfold baseScoreOf
              rw [hgr]
            rw [hb]
          exact ⟨addScores_parent_obs _ _ _ _ _ hne F1,
            addScores_gparent_obs _ _ _ _ _ hne F2⟩
        · simp only [if_pos hpr, if_neg hgr]
          have F1 : findReadable (updateNid parent.nid (init_node flags) t)
              parent.nid = some (some (baseScoreOf flags parent)) := by
            rw [findReadable_init_self flags parent.nid t parent hpf]
            have hb : baseScoreOf flags parent = initScoreOf flags parent := by
              unfold baseScoreOf
              rw [hpr]
            rw [hb]
          have F2 : findReadable (updateNid parent.nid (init_node flags) t)
              gp.nid = some (some (baseScoreOf flags gp)) := by
            have hown : (findByNid gp.nid
                (updateNid parent.nid (init_node flags) t)).map nodeOwn =
                some (nodeOwn gp) := by
              rw [findOwn_updateNid_ne parent.nid gp.nid _
                (init_node_shape flags) hne, hgpf]
              rfl
            rw [findReadable_of_own _ _ _ hown]
            obtain ⟨s, hr⟩ := Option.ne_none_iff_exists'.mp hgr
            have hb : baseScoreOf flags gp = s := by
              unfold baseScoreOf
              rw [hr]
            rw [hr, hb]
          exact ⟨addScores_parent_obs _ _ _ _ _ hne F1,
            addScores_gparent_obs _ _ _ _ _ hne F2⟩
      · by_cases hgr : gp.readable = none
        · simp only [if_neg hpr, if_pos hgr]
          have F1 : findReadable (updateNid gp.nid (init_node flags) t)
              parent.nid = some (some (baseScoreOf flags parent)) := by
            rw [findReadable_updateNid_ne gp.nid parent.nid _
              (init_node_shape flags) (Ne.symm hne),
              findReadable_of_find hpf]
            obtain ⟨s, hr⟩ := Option.ne_none_iff_exists'.mp hpr
            have hb : baseScoreOf flags parent = s := by
              unfold baseScoreOf
              rw [hr]
            rw [hr, hb]
          have F2 : findReadable (updateNid gp.nid (init_node flags) t)
              gp.nid = some (some (baseScoreOf flags gp)) := by
            have hown : (findByNid gp.nid t).map nodeOwn =
                some (nodeOwn gp) := by
              rw [hgpf]
              rfl
            rw [findReadable_init_live flags gp.nid _ gp hown]
            have hb : baseScoreOf flags gp = initScoreOf flags gp := by
              unfold baseScoreOf
              rw [hgr]
            rw [hb]
          exact ⟨addScores_parent_obs _ _ _ _ _ hne F1,
            addScores_gparent_obs _ _ _ _ _ hne F2⟩
        · simp only [if_neg hpr, if_neg hgr]
          have F1 : findReadable t parent.nid =
              some (some (baseScoreOf flags parent)) := by
            rw [findReadable_of_find hpf]
            obtain ⟨s, hr⟩ := Option.ne_none_iff_exists'.mp hpr
            have hb : baseScoreOf flags parent = s := by
              unfold baseScoreOf
              rw [hr]
            rw [hr, hb]
          have F2 : findReadable t gp.nid =
              some (some (baseScoreOf flags gp)) := by
            rw [findReadable_of_find hgpf]
            obtain ⟨s, hr⟩ := Option.ne_none_iff_exists'.mp hgr
            have hb : baseScoreOf flags gp = s := by
              unfold baseScoreOf
              rw [hr]
            rw [hr, hb]
          exact ⟨addScores_parent_obs _ _ _ _ _ hne F1,
            addScores_gparent_obs _ _ _ _ _ hne F2⟩

/-- Witness for C3: on the parsed tree of the crash-input document, the
body (parent) gains exactly the formula score and the html root
(grandparent) exactly half of it. -/
theorem score_paras_step_spec_witness :
    findReadable (score_paras_step 0xFFFF (wCrashHtml, []) 2).1 wCrashBody.nid =
      some (some (baseScoreOf 0xFFFF wCrashBody +
        scoreFormula (get_inner_text true wCrashP))) ∧
    findReadable (score_paras_step 0xFFFF (wCrashHtml, []) 2).1 wCrashHtml.nid =
      some (some (baseScoreOf 0xFFFF wCrashHtml +
        scoreFormula (get_inner_text true wCrashP) / 2)) :=
  ((score_paras_step_spec 0xFFFF wCrashHtml [] 2 wCrashP wCrashBody
      (by rfl) (by rfl) (by rfl)).2 (by decide)).2
    wCrashHtml (by rfl) (by rfl) (by decide)

/-- Helper: `descN` on a constructor. -/
theorem descN_mk (i : Nat) (tg : String) (a : List (String × String))
    (x l : String) (r : Option Rat) (cs : List Node) :
    descN (Node.mk i tg a x l r cs) = descF cs := rfl

/-- Helper: `descF` distributes over append. -/
theorem descF_append (l1 l2 : List Node) :
    descF (l1 ++ l2) = descF l1 ++ descF l2 := by
  induction l1 with
  | nil => rfl
  | cons c rest ih =>
    show descF (c :: (rest ++ l2)) = _
    rw [descF, descF, ih]
    simp [List.append_assoc]

/-- Helper: a member of a forest occurs in its flattening. -/
theorem mem_descF_of_mem {c : Node} {cs : List Node} (h : c ∈ cs) :
    c ∈ descF cs := by
  induction cs with
  | nil => cases h
  | cons hd tl ih =>
    rw [descF]
    rcases List.mem_cons.mp h with h1 | h2
    · exact h1 ▸ List.mem_cons_self _ _
    · exact List.mem_cons_of_mem _ (List.mem_append_right _ (ih h2))

/-- Helper: a descendant of a member occurs in the flattening. -/
theorem mem_descF_of_mem_descN {d c : Node} {cs : List Node}
    (hc : c ∈ cs) (hd : d ∈ descN c) : d ∈ descF cs := by
  induction cs with
  | nil => cases hc
  | cons hd2 tl ih =>
    rw [descF]
    rcases List.mem_cons.mp hc with h1 | h2
    · subst h1
      exact List.mem_cons_of_mem _ (List.mem_append_left _ hd)
    · exact List.mem_cons_of_mem _ (List.mem_append_right _ (ih h2))

/-- Helper: `convert_brs` never changes the root tag. -/
theorem convert_brs_tag (g : Nat) (drop : Bool) (t : Node) :
    (convert_brs g drop t).1.tag = t.tag := by
  cases t with
  | mk i tg a x l r cs =>
    unfold convert_brs
    dsimp only
    split <;> rfl

mutual

/-- Helper: on a tree without `<br>` descendants, `convert_brs` (with an
untouched tail) is the identity and allocates nothing. -/
theorem convert_brs_id_of_noBr :
    ∀ t : Node, (∀ d ∈ descN t, d.tag ≠ "br") → ∀ g,
      convert_brs g false t = (t, g)
  | .mk i tg a x l r cs => by
    intro h g
    unfold convert_brs
    dsimp only
    rw [if_neg]
    · rw [convert_brs_map_id_of_noBr cs h g]
      rfl
    · rw [List.any_eq_true]
      rintro ⟨c, hc, hbr⟩
      exact h c (mem_descF_of_mem hc) (by simpa using hbr)
termination_by structural t => t

theorem convert_brs_map_id_of_noBr :
    ∀ l : List Node, (∀ d ∈ descF l, d.tag ≠ "br") → ∀ g,
      convert_brs_map g l = (l, g)
  | [] => fun _ _ => rfl
  | c :: rest => by
    intro h g
    show (let p1 := convert_brs g false c
          let p2 := convert_brs_map p1.2 rest
          (p1.1 :: p2.1, p2.2)) = (c :: rest, g)
    rw [convert_brs_id_of_noBr c
      (fun d hd => h d (mem_descF_of_mem_descN (List.mem_cons_self _ _) hd)) g]
    dsimp only
    rw [convert_brs_map_id_of_noBr rest
      (fun d hd => h d (by rw [descF]; exact
        List.mem_cons_of_mem _ (List.mem_append_right _ hd))) g]
termination_by structural l => l

end

/-- Helper: members of a fresh `<p>` wrapper's flattening are the
wrapper itself. -/
theorem pWrap_noBr (k : Nat) (s : String) (dd : Node)
    (hdd : dd ∈ descF [Node.mk k "p" [] s "" none []]) : dd.tag ≠ "br" := by
  simp [descF, descN_mk] at hdd
  rw [hdd]
  simp [Node.tag]

/-- Helper: membership in a three-part flattening. -/
theorem mem_descF_three (dd : Node) (lead mid trail : List Node)
    (hh : dd ∈ descF (lead ++ mid ++ trail)) :
    dd ∈ descF lead ∨ dd ∈ descF mid ∨ dd ∈ descF trail := by
  rw [descF_append, descF_append] at hh
  rcases List.mem_append.mp hh with h1 | h2
  · rcases List.mem_append.mp h1 with a1 | a2
    exacts [Or.inl a1, Or.inr (Or.inl a2)]
  · exact Or.inr (Or.inr h2)

mutual

/-- Helper: the output of `convert_brs` has no `<br>` descendant. -/
theorem convert_brs_out_noBr :
    ∀ t : Node, ∀ g drop d, d ∈ descN (convert_brs g drop t).1 → d.tag ≠ "br"
  | .mk i tg a x l r cs => by
    intro g drop d hd
    unfold convert_brs at hd
    dsimp only at hd
    by_cases hbr : cs.any (fun c => c.tag = "br") = true
    · rw [if_pos hbr] at hd
      by_cases hx : strNonblank x = true
      · rw [if_pos hx] at hd
        by_cases htl : strNonblank (if drop = true then "" else l) = true
        · rw [if_pos htl] at hd
          dsimp only at hd
          rw [descN_mk] at hd
          rcases mem_descF_three d _ _ _ hd with h | h | h
          · exact pWrap_noBr _ _ d h
          · exact convert_brs_kids_out_noBr cs _ d h
          · exact pWrap_noBr _ _ d h
        · rw [if_neg htl] at hd
          dsimp only at hd
          rw [descN_mk] at hd
          rcases mem_descF_three d _ _ _ hd with h | h | h
          · exact pWrap_noBr _ _ d h
          · exact convert_brs_kids_out_noBr cs _ d h
          · simp [descF] at h
      · rw [if_neg hx] at hd
        by_cases htl : strNonblank (if drop = true then "" else l) = true
        · rw [if_pos htl] at hd
          dsimp only at hd
          rw [descN_mk] at hd
          rcases mem_descF_three d _ _ _ hd with h | h | h
          · simp [descF] at h
          · exact convert_brs_kids_out_noBr cs _ d h
          · exact pWrap_noBr _ _ d h
        · rw [if_neg htl] at hd
          dsimp only at hd
          rw [descN_mk] at hd
          rcases mem_descF_three d _ _ _ hd with h | h | h
          · simp [descF] at h
          · exact convert_brs_kids_out_noBr cs _ d h
          · simp [descF] at h
    · rw [if_neg hbr] at hd
      dsimp only at hd
      rw [descN_mk] at hd
      have hcs : ∀ c ∈ cs, c.tag ≠ "br" := fun c hc heq =>
        hbr (List.any_eq_true.mpr ⟨c, hc, by simp [heq]⟩)
      exact convert_brs_map_out_noBr cs hcs _ d hd
termination_by structural t => t

theorem convert_brs_kids_out_noBr :
    ∀ l : List Node, ∀ g d, d ∈ descF (convert_brs_kids g l).1 → d.tag ≠ "br"
  | [] => by intro g d hd; simp [convert_brs_kids, descF] at hd
  | c :: rest => by
    intro g d hd
    unfold convert_brs_kids at hd
    dsimp only at hd
    by_cases hbr : c.tag = "br"
    · rw [if_pos hbr] at hd
      by_cases ht : strNonblank c.tail = true
      · rw [if_pos ht] at hd
        dsimp only at hd
        rw [descF_append] at hd
        rcases List.mem_append.mp hd with h | h
        · exact pWrap_noBr _ _ d h
        · exact convert_brs_kids_out_noBr rest _ d h
      · rw [if_neg ht] at hd
        dsimp only at hd
        exact convert_brs_kids_out_noBr rest _ d (by simpa using hd)
    · rw [if_neg hbr] at hd
      dsimp only at hd
      by_cases ht : strNonblank c.tail = true
      · rw [if_pos ht] at hd
        dsimp only at hd
        simp only [descF] at hd
        rcases List.mem_cons.mp hd with h | h
        · rw [h, convert_brs_tag]
          exact hbr
        · rcases List.mem_append.mp h with h2 | h2
          · exact convert_brs_out_noBr c _ _ d h2
          · rcases List.mem_cons.mp h2 with h3 | h3
            · rw [h3]
              simp [Node.tag]
            · simp only [descN_mk, descF, List.nil_append] at h3
              exact convert_brs_kids_out_noBr rest _ d h3
      · rw [if_neg ht] at hd
        dsimp only at hd
        simp only [descF] at hd
        rcases List.mem_cons.mp hd with h | h
        · rw [h, convert_brs_tag]
          exact hbr
        · rcases List.mem_append.mp h with h2 | h2
          · exact convert_brs_out_noBr c _ _ d h2
          · exact convert_brs_kids_out_noBr rest _ d (by simpa using h2)
termination_by structural l => l

theorem convert_brs_map_out_noBr :
    ∀ l : List Node, (∀ c ∈ l, c.tag ≠ "br") → ∀ g d,
      d ∈ descF (convert_brs_map g l).1 → d.tag ≠ "br"
  | [] => by intro _ g d hd; simp [convert_brs_map, descF] at hd
  | c :: rest => by
    intro hl g d hd
    unfold convert_brs_map at hd
    dsimp only at hd
    simp only [descF] at hd
    rcases List.mem_cons.mp hd with h | h
    · rw [h, convert_brs_tag]
      exact hl c (List.mem_cons_self _ _)
    · rcases List.mem_append.mp h with h2 | h2
      · exact convert_brs_out_noBr c _ _ d h2
      · exact convert_brs_map_out_noBr rest
          (fun cc hcc => hl cc (List.mem_cons_of_mem _ hcc)) _ d h2
termination_by structural l => l

end

/-- C8: `convert_brs` leaves any tree without `<br>` descendants
completely unchanged (and allocates no ids); its output never contains a
`<br>` descendant; consequently applying it twice gives exactly the same
tree as applying it once. -/
theorem convert_brs_idempotent (t : Node) (g g2 : Nat) :
    ((∀ d ∈ t.descendants, d.tag ≠ "br") → convert_brs g false t = (t, g)) ∧
    (∀ d ∈ (convert_brs g false t).1.descendants, d.tag ≠ "br") ∧
    convert_brs g2 false (convert_brs g false t).1 =
      ((convert_brs g false t).1, g2) := by
  refine ⟨fun h => convert_brs_id_of_noBr t h g,
    fun d hd => convert_brs_out_noBr t g false d hd,
    convert_brs_id_of_noBr _
      (fun d hd => convert_brs_out_noBr t g false d hd) g2⟩

/-- Witness for C8: the br-free tree `<div><p>one</p><p>two</p></div>`
is returned unchanged. -/
theorem convert_brs_idempotent_witness :
    convert_brs 5 false wBrFreeDiv = (wBrFreeDiv, 5) :=
  (convert_brs_idempotent wBrFreeDiv 5 5).1 (by decide)

unseal Rat.add Rat.mul Rat.inv Rat.sub in
/-- C9 (code bug): on the parseable document
`<html class="article" id="main"><body><p>Some plain paragraph text
longer than twenty five characters.</p></body></html>` the html root
outscores the body (class and id weights give it 51 against the body's
27), `top` becomes the parentless root, and `_select_top` dereferences
`top.getparent()` as `None` (line 461) — an uncaught `AttributeError`
raised by the core itself, so `grab_article` propagates an exception of
its own on a parseable input. -/
theorem grab_one_pass_raises :
    grab_one_pass 0xFFFF 3 10 wCrashHtml = Except.error pyNoneGetchildren := by
  rfl

mutual

/-- Helper: pruning by the empty id set is the identity. -/
theorem pruneMemF_nil : ∀ cs : List Node, pruneMemF [] cs = cs
  | [] => rfl
  | .mk i t a x l r cs :: rest => by
    show pruneMemF [] (Node.mk i t a x l r cs :: rest) = _
    unfold pruneMemF
    rw [if_neg (List.not_mem_nil i)]
    rw [pruneMemN_nil (Node.mk i t a x l r cs), pruneMemF_nil rest]
    rfl
termination_by structural cs => cs

theorem pruneMemN_nil : ∀ n : Node, pruneMemN [] n = n.children
  | .mk _ _ _ _ _ _ cs => by
    show pruneMemF [] cs = cs
    exact pruneMemF_nil cs
termination_by structural n => n

end

mutual

/-- Helper: removing id `j` from a pruned forest prunes by `S ++ [j]`. -/
theorem removeNidF_pruneMemF (j : Nat) (S : List Nat) :
    ∀ cs : List Node, removeNidF j (pruneMemF S cs) = pruneMemF (S ++ [j]) cs
  | [] => rfl
  | .mk i t a x l r cs :: rest => by
    show removeNidF j (pruneMemF S (Node.mk i t a x l r cs :: rest)) = _
    unfold pruneMemF
    by_cases hiS : i ∈ S
    · rw [if_pos hiS, if_pos (List.mem_append_left _ hiS)]
      exact removeNidF_pruneMemF j S rest
    · rw [if_neg hiS]
      by_cases hij : i = j
      · rw [removeNidF, if_pos (by simpa [Node.nid] using hij)]
        rw [if_pos (List.mem_append_right _ (by simp [hij]))]
        exact removeNidF_pruneMemF j S rest
      · rw [removeNidF, if_neg (by simpa [Node.nid] using hij)]
        rw [if_neg (by
          simp only [List.mem_append, List.mem_singleton]
          rintro (h | h)
          exacts [hiS h, hij h])]
        rw [removeNidF_pruneMemF j S rest]
        show removeNid j (Node.mk i t a x l r (pruneMemF S cs)) ::
            pruneMemF (S ++ [j]) rest = _
        rw [removeNid]
        have h : removeNidF j (pruneMemF S cs) = pruneMemF (S ++ [j]) cs :=
          removeNidF_pruneMemN j S (Node.mk i t a x l r cs)
        rw [h]
        rfl
termination_by structural cs => cs

theorem removeNidF_pruneMemN (j : Nat) (S : List Nat) :
    ∀ n : Node, removeNidF j (pruneMemF S n.children) = pruneMemF (S ++ [j]) n.children
  | .mk _ _ _ _ _ _ cs => removeNidF_pruneMemF j S cs
termination_by structural n => n

end

/-- Helper: removing a node id from a pruned tree prunes by the larger
set. -/
theorem removeNid_pruneMem (j : Nat) (S : List Nat) (t : Node) :
    removeNid j (pruneMem S t) = pruneMem (S ++ [j]) t := by
  cases t with
  | mk i tg a x l r cs =>
    show removeNid j (Node.mk i tg a x l r (pruneMemF S cs)) = _
    rw [removeNid]
    rw [removeNidF_pruneMemF j S cs]
    rfl

/-- Helper: folding removals over a pruned tree prunes by the id list. -/
theorem foldl_remove_eq_prune (t : Node) :
    ∀ (L : List Node) (S : List Nat),
      L.foldl (fun acc n => removeNid n.nid acc) (pruneMem S t) =
        pruneMem (S ++ L.map Node.nid) t := by
  intro L
  induction L with
  | nil => intro S; simp
  | cons n L ih =>
    intro S
    rw [List.foldl_cons, removeNid_pruneMem, ih (S ++ [n.nid])]
    simp

/-- Helper: a fold that skips exempt entries equals folding removals
over the filtered list. -/
theorem foldl_skip_eq_filter (P : Node → Bool) :
    ∀ (L : List Node) (acc : Node),
      L.foldl (fun t n => if P n then t else removeNid n.nid t) acc =
        (L.filter (fun n => !P n)).foldl (fun acc n => removeNid n.nid acc) acc := by
  intro L
  induction L with
  | nil => intro acc; rfl
  | cons n L ih =>
    intro acc
    rw [List.foldl_cons, List.filter_cons]
    by_cases h : P n = true
    · rw [if_pos h]
      simp only [h, Bool.not_true, Bool.false_eq_true, if_neg]
      rw [ih]
      simp
    · rw [if_neg h]
      have h2 : (!P n) = true := by simp [Bool.not_eq_true] at h ⊢; exact h
      simp only [h2, if_pos]
      rw [List.foldl_cons, ih]

/-- Helper: pruning by the empty id set is the identity on a tree. -/
theorem pruneMem_nil (t : Node) : pruneMem [] t = t := by
  cases t with
  | mk i tg a x l r cs =>
    show Node.mk i tg a x l r (pruneMemF [] cs) = _
    rw [pruneMemF_nil]

/-- Helper: folding removals over a tree prunes by the id list. -/
theorem foldl_remove_eq_prune2 (t : Node) (L : List Node) :
    L.foldl (fun acc n => removeNid n.nid acc) t = pruneMem (L.map Node.nid) t := by
  conv_lhs => rw [show t = pruneMem [] t from (pruneMem_nil t).symm]
  rw [foldl_remove_eq_prune, List.nil_append]

/-- Helper: under distinct ids, a node id lies in the mapped filtered id
list exactly when the node itself passes the filter. -/
theorem mem_map_nid_filter_iff (L : List Node) (hN : (L.map Node.nid).Nodup)
    (P : Node → Bool) (m : Node) (hm : m ∈ L) :
    m.nid ∈ (L.filter P).map Node.nid ↔ P m = true := by
  constructor
  · intro h
    obtain ⟨m2, hm2, hEq⟩ := List.mem_map.mp h
    obtain ⟨hm2L, hP⟩ := List.mem_filter.mp hm2
    have hmm : m2 = m := List.inj_on_of_nodup_map hN hm2L hm hEq
    exact hmm ▸ hP
  · intro h
    exact List.mem_map.mpr ⟨m, List.mem_filter.mpr ⟨hm, h⟩, rfl⟩

mutual

/-- Helper: if the id set holds exactly the forest nodes that
`cleanRec` drops, pruning by the set equals the recursive clean. -/
theorem pruneMemF_eq_cleanRecF (tag : String) (isEmb : Bool) (S : List Nat) :
    ∀ cs : List Node,
      (∀ m ∈ descF cs,
        (m.nid ∈ S ↔ m.tag = tag ∧ ¬ (isEmb && videoAttrsMatch m) = true)) →
      pruneMemF S cs = cleanRecF tag isEmb cs
  | [] => fun _ => rfl
  | .mk i t a x l r cs :: rest => by
    intro H
    have hself : (Node.mk i t a x l r cs) ∈ descF (Node.mk i t a x l r cs :: rest) := by
      rw [descF]; exact List.mem_cons_self _ _
    have h0 := H _ hself
    have Hrest : ∀ m ∈ descF rest,
        (m.nid ∈ S ↔ m.tag = tag ∧ ¬ (isEmb && videoAttrsMatch m) = true) := by
      intro m hm
      exact H m (by
        rw [descF]
        exact List.mem_cons_of_mem _ (List.mem_append_right _ hm))
    have Hcs : ∀ m ∈ descF cs,
        (m.nid ∈ S ↔ m.tag = tag ∧ ¬ (isEmb && videoAttrsMatch m) = true) := by
      intro m hm
      exact H m (by
        rw [descF]
        exact List.mem_cons_of_mem _ (List.mem_append_left _ hm))
    show pruneMemF S (Node.mk i t a x l r cs :: rest) = _
    unfold pruneMemF cleanRecF
    by_cases hC : (t = tag ∧ ¬ (isEmb && videoAttrsMatch (Node.mk i t a x l r cs)) = true)
    · have hiS : i ∈ S := h0.mpr hC
      rw [if_pos hiS, if_pos hC]
      exact pruneMemF_eq_cleanRecF tag isEmb S rest Hrest
    · have hiS : i ∉ S := fun hmem => hC (h0.mp hmem)
      rw [if_neg hiS, if_neg hC]
      rw [pruneMemF_eq_cleanRecF tag isEmb S rest Hrest]
      have hkids : pruneMemF S cs = cleanRecF tag isEmb cs :=
        pruneMemF_eq_cleanRecN tag isEmb S (Node.mk i t a x l r cs) Hcs
      show Node.mk i t a x l r (pruneMemF S cs) :: _ =
        Node.mk i t a x l r (cleanRecF tag isEmb cs) :: _
      rw [hkids]
termination_by structural cs => cs

theorem pruneMemF_eq_cleanRecN (tag : String) (isEmb : Bool) (S : List Nat) :
    ∀ n : Node,
      (∀ m ∈ descN n,
        (m.nid ∈ S ↔ m.tag = tag ∧ ¬ (isEmb && videoAttrsMatch m) = true)) →
      pruneMemF S n.children = cleanRecF tag isEmb n.children
  | .mk _ _ _ _ _ _ cs => fun H => pruneMemF_eq_cleanRecF tag isEmb S cs H
termination_by structural n => n

end

/-- C7 (amended): whenever all element ids are distinct (as lxml object
identity guarantees), `clean(node, tag)` equals the top-down recursive
prune `cleanRec`: every `tag`-tagged node that is not video-exempt is
dropped with its whole subtree, so a video-exempt node survives only if
no removed node lies on its ancestor path — nested video embeds inside a
removed same-tag node are NOT preserved. -/
theorem clean_eq_cleanRec (node : Node) (tag : String) (h : NidsOk node) :
    clean node tag = cleanRec node tag := by
  cases node with
  | mk i t a x l r cs =>
    have hND : ((descF cs).map Node.nid).Nodup := by
      have h2 := h
      unfold NidsOk Node.allNodes Node.descendants at h2
      rw [descN_mk, List.map_cons] at h2
      exact h2.of_cons
    unfold clean
    dsimp only
    simp only [Node.descendants, descN_mk]
    rw [foldl_skip_eq_filter, foldl_remove_eq_prune2, List.filter_filter]
    unfold pruneMem cleanRec
    simp only [Node.nid, Node.tag, Node.attrs, Node.text, Node.tail,
      Node.readable, Node.children]
    congr 1
    apply pruneMemF_eq_cleanRecF
    intro m hm
    rw [mem_map_nid_filter_iff _ hND _ m hm]
    constructor
    · intro hPm
      rw [Bool.and_eq_true] at hPm
      obtain ⟨hnv, htg⟩ := hPm
      rw [Bool.not_eq_true'] at hnv
      refine ⟨by simpa using htg, ?_⟩
      rw [hnv]
      exact Bool.false_ne_true
    · rintro ⟨htg, hnv⟩
      rw [Bool.and_eq_true, Bool.not_eq_true']
      refine ⟨?_, by simpa using htg⟩
      cases hE : ((decide (tag = "object") || decide (tag = "embed")) && videoAttrsMatch m) with
      | false => rfl
      | true => exact absurd hE hnv

/-- Witness for C7: on the parse of a div holding a plain outer object
with a nested youtube object, the ids are distinct and `clean` agrees
with the recursive prune, which drops the nested video along with its
parent. -/
theorem clean_eq_cleanRec_witness :
    NidsOk cexObjDiv ∧ clean cexObjDiv "object" = cleanRec cexObjDiv "object" :=
  ⟨by unfold NidsOk; decide,
    clean_eq_cleanRec cexObjDiv "object" (by unfold NidsOk; decide)⟩

mutual

/-- Helper: removal of an id absent from the subtree is the identity. -/
theorem removeNid_id_of_not_mem (j : Nat) :
    ∀ n : Node, (∀ m ∈ descN n, m.nid ≠ j) → removeNid j n = n
  | .mk i t a x l r cs => fun h => by
    show Node.mk i t a x l r (removeNidF j cs) = _
    rw [removeNidF_id_of_not_mem j cs h]
termination_by structural n => n

theorem removeNidF_id_of_not_mem (j : Nat) :
    ∀ cs : List Node, (∀ m ∈ descF cs, m.nid ≠ j) → removeNidF j cs = cs
  | [] => fun _ => rfl
  | c :: rest => fun h => by
    have hc : c.nid ≠ j := h c (by rw [descF]; exact List.mem_cons_self _ _)
    rw [removeNidF, if_neg hc]
    rw [removeNid_id_of_not_mem j c (fun m hm => h m (by
      rw [descF]
      exact List.mem_cons_of_mem _ (List.mem_append_left _ hm)))]
    rw [removeNidF_id_of_not_mem j rest (fun m hm => h m (by
      rw [descF]
      exact List.mem_cons_of_mem _ (List.mem_append_right _ hm)))]
termination_by structural cs => cs

end

mutual

/-- Helper: removal only drops entries from the preorder id list. -/
theorem removeNidF_nid_sublist (j : Nat) :
    ∀ cs : List Node,
      ((descF (removeNidF j cs)).map Node.nid).Sublist ((descF cs).map Node.nid)
  | [] => by exact List.Sublist.refl _
  | c :: rest => by
    rw [removeNidF]
    by_cases h : c.nid = j
    · rw [if_pos h]
      refine (removeNidF_nid_sublist j rest).trans ?_
      rw [descF]
      simp only [List.map_cons, List.map_append]
      exact (List.sublist_append_right _ _).cons _
    · rw [if_neg h]
      rw [descF, descF]
      simp only [List.map_cons, List.map_append]
      have h1 : (removeNid j c).nid = c.nid := by cases c; rfl
      rw [h1]
      exact List.Sublist.cons₂ _
        ((removeNid_nid_sublist j c).append (removeNidF_nid_sublist j rest))
termination_by structural cs => cs

theorem removeNid_nid_sublist (j : Nat) :
    ∀ n : Node,
      ((descN (removeNid j n)).map Node.nid).Sublist ((descN n).map Node.nid)
  | .mk i t a x l r cs => by
    show ((descF (removeNidF j cs)).map Node.nid).Sublist _
    exact removeNidF_nid_sublist j cs
termination_by structural n => n

end

mutual

/-- Helper: searching for an id absent from the subtree fails. -/
theorem findByNid_none_of_not_mem (j : Nat) :
    ∀ n : Node, n.nid ≠ j → (∀ m ∈ descN n, m.nid ≠ j) → findByNid j n = none
  | .mk i t a x l r cs => fun hn h => by
    rw [findByNid, if_neg (show ¬ i = j from hn)]
    exact findInF_none_of_not_mem j cs h
termination_by structural n => n

theorem findInF_none_of_not_mem (j : Nat) :
    ∀ cs : List Node, (∀ m ∈ descF cs, m.nid ≠ j) → findInF j cs = none
  | [] => fun _ => rfl
  | c :: rest => fun h => by
    have hc : findByNid j c = none :=
      findByNid_none_of_not_mem j c
        (h c (by rw [descF]; exact List.mem_cons_self _ _))
        (fun m hm => h m (by
          rw [descF]
          exact List.mem_cons_of_mem _ (List.mem_append_left _ hm)))
    rw [findInF, hc]
    exact findInF_none_of_not_mem j rest (fun m hm => h m (by
      rw [descF]
      exact List.mem_cons_of_mem _ (List.mem_append_right _ hm)))
termination_by structural cs => cs

end

mutual

/-- Helper: under distinct ids, searching for a present node's id finds
that very node. -/
theorem findByNid_allNodes :
    ∀ n : Node, ((n :: descN n).map Node.nid).Nodup →
      ∀ c, c ∈ n :: descN n → findByNid c.nid n = some c
  | .mk i t a x l r cs => fun hnd c hc => by
    rw [List.map_cons, List.nodup_cons] at hnd
    obtain ⟨hhead, htail⟩ := hnd
    rcases List.mem_cons.mp hc with rfl | hdesc
    · rw [findByNid, if_pos (show i = (Node.mk i t a x l r cs).nid from rfl)]
    · have hne : i ≠ c.nid := fun hEq => hhead (hEq ▸ List.mem_map.mpr ⟨c, hdesc, rfl⟩)
      rw [findByNid, if_neg hne]
      exact findInF_of_mem cs htail c hdesc
termination_by structural n => n

theorem findInF_of_mem :
    ∀ cs : List Node, ((descF cs).map Node.nid).Nodup →
      ∀ c, c ∈ descF cs → findInF c.nid cs = some c
  | [] => fun _ c hc => absurd hc (List.not_mem_nil c)
  | d :: rest => fun hnd c hc => by
    rw [descF] at hc
    rw [descF, List.map_cons, List.map_append, List.nodup_cons] at hnd
    obtain ⟨hhead, htail⟩ := hnd
    have hdn : ((d :: descN d).map Node.nid).Nodup := by
      rw [List.map_cons, List.nodup_cons]
      exact ⟨fun hm => hhead (List.mem_append_left _ hm), htail.of_append_left⟩
    rcases List.mem_cons.mp hc with hEq | hc2
    · rw [hEq]
      have hd : findByNid d.nid d = some d :=
        findByNid_allNodes d hdn d (List.mem_cons_self _ _)
      rw [findInF, hd]
    · rcases List.mem_append.mp hc2 with hIn | hRest
      · have hd : findByNid c.nid d = some c :=
          findByNid_allNodes d hdn c (List.mem_cons_of_mem _ hIn)
        rw [findInF, hd]
      · have hcm : c.nid ∈ (descF rest).map Node.nid := List.mem_map.mpr ⟨c, hRest, rfl⟩
        have hnone : findByNid c.nid d = none := by
          refine findByNid_none_of_not_mem c.nid d ?_ ?_
          · exact fun hEq => hhead (List.mem_append_right _ (hEq ▸ hcm))
          · intro m hm hEq
            exact (List.disjoint_of_nodup_append htail)
              (List.mem_map.mpr ⟨m, hm, rfl⟩) (hEq ▸ hcm)
        rw [findInF, hnone]
        exact findInF_of_mem rest htail.of_append_right c hRest
termination_by structural cs => cs

end

mutual

/-- Helper: the skipping visit is a sublist of document order. -/
theorem skipVisitF_sublist (p : Node → Bool) :
    ∀ cs : List Node, (skipVisitF p cs).Sublist (descF cs)
  | [] => by exact List.Sublist.refl _
  | c :: rest => by
    rw [skipVisitF, descF]
    by_cases h : p c = true
    · rw [if_pos h]
      rw [List.nil_append]
      exact List.Sublist.cons₂ c
        ((skipVisitF_sublist p rest).trans (List.sublist_append_right _ _))
    · rw [if_neg h]
      exact List.Sublist.cons₂ c
        ((skipVisitN_sublist p c).append (skipVisitF_sublist p rest))
termination_by structural cs => cs

theorem skipVisitN_sublist (p : Node → Bool) :
    ∀ n : Node, (skipVisitN p n).Sublist (descN n)
  | .mk i t a x l r cs => by
    show (skipVisitF p cs).Sublist _
    exact skipVisitF_sublist p cs
termination_by structural n => n

end

end Readable
